import Mathlib

/-!
Verification model of `federation/schema.go` from samson-crypto/thunder.

The Go source is embedded shallowly:
* Go structs become Lean structures; `map[K]V` values become association
  lists (`List (K × V)`) with unique keys; Go map *sets* (`map[string]bool`
  that is only ever written with `true`) become `List String` with
  insert-if-absent, so membership is the observable content.
* Go's pointer heap built by `parseSchema` (a `map[string]graphql.Type`
  whose objects point at each other, possibly cyclically) is modelled as a
  table keyed by type name, with pointers replaced by names: `parseSchema`
  rejects duplicate type names, so a name identifies a unique heap cell,
  and a `*graphql.Field` is identified by the pair (type name, field name).
* Fallible Go functions return `Except GoErr α`; a Go `error` return is
  `.error (.err msg)` with the source's message text, and a Go runtime
  panic (nil-pointer dereference, failed type assertion without an `ok`
  guard) is `.error (.panic msg)`, kept distinct because a panicking Go
  function does not *return* an error.
* Go map iteration order is unspecified; every map iterated by the source
  either only accumulates order-insensitive data or short-circuits at a
  first error whose presence (and, where we state it, message) does not
  depend on the order, so the model fixes the association-list order.
-/

namespace Thunder

/-- A Go error outcome: either a returned `error` value (`err`) or a
runtime panic (`panic`). -/
inductive GoErr where
  | err (msg : String)
  | panic (msg : String)
deriving Repr, DecidableEq

/-- Text of an error, used when Go wraps a message with `%v`. -/
def errText : GoErr → String
  | .err m => m
  | .panic m => m

/-- Go error wrapping (`fmt.Errorf`/`oops.Wrapf` with a message before the
wrapped error). A panic is never wrapped: it unwinds past the caller. -/
def wrapGo (pre : String) : GoErr → GoErr
  | .err m => .err (pre ++ m)
  | .panic m => .panic m

/-- First-match association list lookup, modelling Go map indexing. -/
def lookupA {κ α : Type} [DecidableEq κ] : List (κ × α) → κ → Option α
  | [], _ => none
  | (k, v) :: rest, key => if key = k then some v else lookupA rest key

/-- Association list insert-or-replace, modelling Go map assignment; an
existing key keeps its position, a new key is appended. -/
def insertReplace {κ α : Type} [DecidableEq κ] : List (κ × α) → κ → α → List (κ × α)
  | [], key, v => [(key, v)]
  | (k, w) :: rest, key, v =>
    if key = k then (key, v) :: rest else (k, w) :: insertReplace rest key v

/-- Insert-if-absent on a list of strings, modelling `m[s] = true` on a Go
`map[string]bool` used as a set. -/
def insertNew (l : List String) (s : String) : List String :=
  if s ∈ l then l else l ++ [s]

/-- `introspectionTypeRef` (declared outside src/, shaped by the spec's
"type references are nested (kind, name, ofType) trees"): the Go struct
`(Kind, Name, OfType *introspectionTypeRef)`, split into two constructors
by whether `OfType` is nil (`base`) or points at a wrapped reference
(`wrap`), so that recursion along the `ofType` chain is structural. -/
inductive IntrospectionTypeRef where
  | base (kind name : String)
  | wrap (kind name : String) (ofType : IntrospectionTypeRef)
deriving Repr, DecidableEq

/-- The `Kind` field of a reference. -/
def IntrospectionTypeRef.kind : IntrospectionTypeRef → String
  | .base k _ => k
  | .wrap k _ _ => k

/-- The `Name` field of a reference. -/
def IntrospectionTypeRef.name : IntrospectionTypeRef → String
  | .base _ n => n
  | .wrap _ n _ => n

/-- The `OfType` field of a reference (`none` models nil). -/
def IntrospectionTypeRef.ofType : IntrospectionTypeRef → Option IntrospectionTypeRef
  | .base _ _ => none
  | .wrap _ _ u => some u

/-- An introspected input field / argument `(name, type-reference)`. -/
structure IntrospectionInputField where
  name : String
  type : Option IntrospectionTypeRef
deriving Repr, DecidableEq

/-- An introspected field `(name, type-reference, arguments)`. -/
structure IntrospectionField where
  name : String
  type : Option IntrospectionTypeRef
  args : List IntrospectionInputField
deriving Repr, DecidableEq

/-- An introspected enum value. -/
structure IntrospectionEnumValue where
  name : String
deriving Repr, DecidableEq

/-- One introspected type description (name, kind, fields, input fields,
possible types, enum values). -/
structure IntrospectionType where
  name : String
  kind : String
  fields : List IntrospectionField
  inputFields : List IntrospectionInputField
  possibleTypes : List IntrospectionTypeRef
  enumValues : List IntrospectionEnumValue
deriving Repr, DecidableEq

/-- The `__schema` payload: a list of type descriptions. -/
structure IntrospectionSchema where
  types : List IntrospectionType
deriving Repr, DecidableEq

/-- `IntrospectionQueryResult`: one service's introspected schema. -/
structure IntrospectionQueryResult where
  schema : IntrospectionSchema
deriving Repr, DecidableEq

/-- The federation marker field name. Modelled from the spec: the constant
`federationField` is declared outside src/; the spec fixes the marker field
name as `_federation`. -/
def federationField : String := "_federation"

/-- A `graphql.Type` reference as stored in a field or argument: a name
pointing into the type table, possibly wrapped in List/NonNull. -/
inductive GType where
  | named (name : String)
  | list (t : GType)
  | nonNull (t : GType)
deriving Repr, DecidableEq

/-- A `graphql.Field`: parsed argument types, return type, and the
`FederatedKey` service set (services only ever recorded with `true`). -/
structure GField where
  args : List (String × GType)
  type : GType
  federatedKey : List String
deriving Repr, DecidableEq

/-- A `graphql.Object`. -/
structure GObject where
  name : String
  fields : List (String × GField)
deriving Repr, DecidableEq

/-- A `graphql.InputObject`. -/
structure GInputObject where
  name : String
  inputFields : List (String × GType)
deriving Repr, DecidableEq

/-- A `graphql.Union`; members are object names (the source keys its
member map by the member object's name). -/
structure GUnion where
  name : String
  members : List String
deriving Repr, DecidableEq

/-- A `graphql.Enum`; the `ReverseMap` of the source is the identity map
on the value names and is not modelled separately. -/
structure GEnum where
  name : String
  values : List String
deriving Repr, DecidableEq

/-- The closed sum of named `graphql` types held in the merged type table. -/
inductive GNamedType where
  | object (o : GObject)
  | inputObject (io : GInputObject)
  | scalar (name : String)
  | union (u : GUnion)
  | enum (e : GEnum)
deriving Repr, DecidableEq

/-- The heap of named types built by `parseSchema`
(`map[string]graphql.Type`), keyed by type name. -/
abbrev TypeTable := List (String × GNamedType)

/-- `getRootType`: unwrap the `ofType` chain down to the innermost
reference. (The Go function dereferences its argument unconditionally, so
callers handle the nil case; see the call sites below.) -/
def getRootType : IntrospectionTypeRef → IntrospectionTypeRef
  | .base k n => .base k n
  | .wrap _ _ u => getRootType u

/-- `lookupType`: validate and unwrap an introspected type reference to
its innermost reference. (The Go function's `all` parameter is unused and
dropped here.) A nil reference is `malformed typeref`; an unrecognized
kind is an error. -/
def lookupTypeAux : IntrospectionTypeRef → Except GoErr IntrospectionTypeRef
  | .base k n =>
    if k == "SCALAR" || k == "OBJECT" || k == "UNION" || k == "INPUT_OBJECT" || k == "ENUM" then
      .ok (.base k n)
    else if k == "LIST" || k == "NON_NULL" then
      .error (.err "malformed typeref")
    else
      .error (.err ("unknown type kind " ++ k))
  | .wrap k n u =>
    if k == "SCALAR" || k == "OBJECT" || k == "UNION" || k == "INPUT_OBJECT" || k == "ENUM" then
      .ok (.wrap k n u)
    else if k == "LIST" || k == "NON_NULL" then
      lookupTypeAux u
    else
      .error (.err ("unknown type kind " ++ k))

/-- See `lookupTypeAux`; this wrapper adds the Go nil case. -/
def lookupType : Option IntrospectionTypeRef → Except GoErr IntrospectionTypeRef
  | none => .error (.err "malformed typeref")
  | some r => lookupTypeAux r

/-- `lookupTypeRef`: map an introspected type reference to a `graphql`
type, resolving the named root against the type table and rebuilding the
List/NonNull wrappers. -/
def lookupTypeRefAux : IntrospectionTypeRef → TypeTable → Except GoErr GType
  | .base k n, all =>
    if k == "SCALAR" || k == "OBJECT" || k == "UNION" || k == "INPUT_OBJECT" || k == "ENUM" then
      match lookupA all n with
      | none => .error (.err ("type " ++ n ++ " not found among top-level types"))
      | some _ => .ok (GType.named n)
    else if k == "LIST" || k == "NON_NULL" then
      .error (.err "malformed typeref")
    else
      .error (.err ("unknown type kind " ++ k))
  | .wrap k n u, all =>
    if k == "SCALAR" || k == "OBJECT" || k == "UNION" || k == "INPUT_OBJECT" || k == "ENUM" then
      match lookupA all n with
      | none => .error (.err ("type " ++ n ++ " not found among top-level types"))
      | some _ => .ok (GType.named n)
    else if k == "LIST" then
      match lookupTypeRefAux u all with
      | .error e => .error e
      | .ok inner => .ok (GType.list inner)
    else if k == "NON_NULL" then
      match lookupTypeRefAux u all with
      | .error e => .error e
      | .ok inner => .ok (GType.nonNull inner)
    else
      .error (.err ("unknown type kind " ++ k))

/-- See `lookupTypeRefAux`; this wrapper adds the Go nil case. -/
def lookupTypeRef : Option IntrospectionTypeRef → TypeTable → Except GoErr GType
  | none, _ => .error (.err "malformed typeref")
  | some r, all => lookupTypeRefAux r all

/-- Loop body of `parseInputFields`, accumulating the parsed map. On a
`lookupType` failure the Go source formats `rawType.Name` with `rawType`
nil, a nil-pointer dereference, modelled as a panic. A root kind outside
INPUT_OBJECT/SCALAR/ENUM is rejected. -/
def parseInputFieldsAux (all : TypeTable) :
    List IntrospectionInputField → List (String × GType) →
    Except GoErr (List (String × GType))
  | [], acc => .ok acc
  | f :: rest, acc =>
    match lookupType f.type with
    | .error _ =>
      .error (.panic "runtime error: invalid memory address or nil pointer dereference")
    | .ok raw =>
      if raw.kind == "INPUT_OBJECT" || raw.kind == "SCALAR" || raw.kind == "ENUM" then
        match lookupTypeRef f.type all with
        | .error e => .error (wrapGo ("field " ++ f.name ++ " has bad typ: ") e)
        | .ok t => parseInputFieldsAux all rest (insertReplace acc f.name t)
      else
        .error (.err ("input field " ++ f.name ++ " has bad typ: " ++ raw.kind))

/-- `parseInputFields`: map a list of introspected input fields to their
`graphql` types, validating that each root type is an input object,
scalar, or enum. -/
def parseInputFields (source : List IntrospectionInputField) (all : TypeTable) :
    Except GoErr (List (String × GType)) :=
  parseInputFieldsAux all source []

/-- First pass of `parseSchema`: create an empty shell per named type,
rejecting duplicate names and unknown kinds. -/
def buildShells : List IntrospectionType → TypeTable → Except GoErr TypeTable
  | [], all => .ok all
  | typ :: rest, all =>
    match lookupA all typ.name with
    | some _ => .error (.err ("duplicate type " ++ typ.name))
    | none =>
      if typ.kind == "OBJECT" then
        buildShells rest (all ++ [(typ.name, .object ⟨typ.name, []⟩)])
      else if typ.kind == "INPUT_OBJECT" then
        buildShells rest (all ++ [(typ.name, .inputObject ⟨typ.name, []⟩)])
      else if typ.kind == "SCALAR" then
        buildShells rest (all ++ [(typ.name, .scalar typ.name)])
      else if typ.kind == "UNION" then
        buildShells rest (all ++ [(typ.name, .union ⟨typ.name, []⟩)])
      else if typ.kind == "ENUM" then
        buildShells rest (all ++ [(typ.name, .enum ⟨typ.name, []⟩)])
      else
        .error (.err ("unknown type kind " ++ typ.kind))

/-- Build an object's field map (second pass): resolve each field's return
type and parse its arguments. Go assigns into a map, so a repeated field
name overwrites. -/
def buildFields (typName : String) (all : TypeTable) :
    List IntrospectionField → List (String × GField) →
    Except GoErr (List (String × GField))
  | [], acc => .ok acc
  | f :: rest, acc =>
    match lookupTypeRef f.type all with
    | .error e =>
      .error (wrapGo ("typ " ++ typName ++ " field " ++ f.name ++ " has bad typ: ") e)
    | .ok ft =>
      match parseInputFields f.args all with
      | .error e => .error (wrapGo ("field " ++ f.name ++ " input: ") e)
      | .ok parsed =>
        buildFields typName all rest (insertReplace acc f.name ⟨parsed, ft, []⟩)

/-- Build a union's member set (second pass). A possible type of kind
other than OBJECT is an error; in the Go source that error path formats
the nil result of a failed type assertion (`typ.Name` with `typ` nil), so
a possible type whose name does not resolve to an object panics. The Go
message also renders the offending reference with `%v`; the rendering is
omitted here. -/
def buildUnionMembers (typName : String) (all : TypeTable) :
    List IntrospectionTypeRef → List String → Except GoErr (List String)
  | [], acc => .ok acc
  | other :: rest, acc =>
    if other.kind == "OBJECT" then
      match lookupA all other.name with
      | some (.object o) => buildUnionMembers typName all rest (insertNew acc o.name)
      | _ => .error (.panic "runtime error: invalid memory address or nil pointer dereference")
    else
      .error (.err ("typ " ++ typName ++ " has possible typ not OBJECT"))

/-- Second pass of `parseSchema` for one type: populate the shell created
in the first pass. The unguarded Go type assertions
(`all[typ.Name].(*graphql.Object)` etc.) are modelled as panics on
mismatch; they are unreachable because the first pass keyed the shell of
the same kind under the same (unique) name. -/
def fillType (all : TypeTable) (typ : IntrospectionType) : Except GoErr TypeTable :=
  if typ.kind == "OBJECT" then
    match buildFields typ.name all typ.fields [] with
    | .error e => .error e
    | .ok fields =>
      match lookupA all typ.name with
      | some (.object o) => .ok (insertReplace all typ.name (.object { o with fields := fields }))
      | _ => .error (.panic "interface conversion: graphql.Type is not *graphql.Object")
  else if typ.kind == "INPUT_OBJECT" then
    match parseInputFields typ.inputFields all with
    | .error e => .error (wrapGo ("typ " ++ typ.name ++ ": ") e)
    | .ok parsed =>
      match lookupA all typ.name with
      | some (.inputObject io) =>
        .ok (insertReplace all typ.name (.inputObject { io with inputFields := parsed }))
      | _ => .error (.panic "interface conversion: graphql.Type is not *graphql.InputObject")
  else if typ.kind == "UNION" then
    match buildUnionMembers typ.name all typ.possibleTypes [] with
    | .error e => .error e
    | .ok members =>
      match lookupA all typ.name with
      | some (.union u) => .ok (insertReplace all typ.name (.union { u with members := members }))
      | _ => .error (.panic "interface conversion: graphql.Type is not *graphql.Union")
  else if typ.kind == "ENUM" then
    match lookupA all typ.name with
    | some (.enum e) =>
      .ok (insertReplace all typ.name (.enum { e with values := typ.enumValues.map (·.name) }))
    | _ => .error (.panic "interface conversion: graphql.Type is not *graphql.Enum")
  else if typ.kind == "SCALAR" then
    .ok all
  else
    .error (.err ("unknown type kind " ++ typ.kind))

/-- Second pass of `parseSchema` over all types. -/
def fillTypes : List IntrospectionType → TypeTable → Except GoErr TypeTable
  | [], all => .ok all
  | typ :: rest, all =>
    match fillType all typ with
    | .error e => .error e
    | .ok all2 => fillTypes rest all2

/-- `parseSchema`: validate the introspected types and build the type
table in two passes (shells, then contents), so that cyclic type
references never recurse through a type-to-type cycle. -/
def parseSchema (schema : IntrospectionQueryResult) : Except GoErr TypeTable :=
  match buildShells schema.schema.types [] with
  | .error e => .error e
  | .ok all => fillTypes schema.schema.types all

/-! ## The schema merger (modelled from the spec)

`mergeSchemaSlice` and the `Intersection`/`Union` merge modes are declared
outside src/. Modelled from the spec: §4.1 "Intra-service merge
(Intersection)" keeps only type/field/enum-value entries present in every
version under structural equality of type references; "Inter-service merge
(Union)" keeps the union of types and fields and fails with a
type-conflict error when a field shared by two services has structurally
different return-type references. Duplicate type names within one schema
are rejected ("duplicate type" is listed among the spec's merge-time
errors); a type name carried by two schemas with different kinds cannot be
merged and is an error. -/

/-- The merge policy: `Intersection` across versions of one service,
`Union` across services. -/
inductive MergeMode where
  | Intersection
  | Union
deriving Repr, DecidableEq

/-- Check that every field name shared by both lists has structurally
identical type references (union merge's type-conflict check). -/
def checkCommonFields : List IntrospectionField → List IntrospectionField → Except GoErr Unit
  | [], _ => .ok ()
  | fa :: rest, b =>
    match b.find? (fun fb => fb.name == fa.name) with
    | none => checkCommonFields rest b
    | some fb =>
      if fa.type == fb.type then checkCommonFields rest b
      else .error (.err ("conflicting return types for field " ++ fa.name))

/-- Merge two field lists under a mode (see the section comment). -/
def mergeFieldLists : MergeMode → List IntrospectionField → List IntrospectionField →
    Except GoErr (List IntrospectionField)
  | .Union, a, b =>
    match checkCommonFields a b with
    | .error e => .error e
    | .ok () => .ok (a ++ b.filter (fun fb => !(a.any (fun fa => fa.name == fb.name))))
  | .Intersection, a, b =>
    .ok (a.filter (fun fa => b.any (fun fb => fb.name == fa.name && fb.type == fa.type)))

/-- Union merge's conflict check for input-field lists. -/
def checkCommonInputs : List IntrospectionInputField → List IntrospectionInputField → Except GoErr Unit
  | [], _ => .ok ()
  | fa :: rest, b =>
    match b.find? (fun fb => fb.name == fa.name) with
    | none => checkCommonInputs rest b
    | some fb =>
      if fa.type == fb.type then checkCommonInputs rest b
      else .error (.err ("conflicting types for input field " ++ fa.name))

/-- Merge two input-field lists under a mode. -/
def mergeInputLists : MergeMode → List IntrospectionInputField → List IntrospectionInputField →
    Except GoErr (List IntrospectionInputField)
  | .Union, a, b =>
    match checkCommonInputs a b with
    | .error e => .error e
    | .ok () => .ok (a ++ b.filter (fun fb => !(a.any (fun fa => fa.name == fb.name))))
  | .Intersection, a, b =>
    .ok (a.filter (fun fa => b.any (fun fb => fb.name == fa.name && fb.type == fa.type)))

/-- Merge two enum-value lists under a mode. -/
def mergeEnumValues : MergeMode → List IntrospectionEnumValue → List IntrospectionEnumValue →
    List IntrospectionEnumValue
  | .Union, a, b => a ++ b.filter (fun vb => !(a.any (fun va => va.name == vb.name)))
  | .Intersection, a, b => a.filter (fun va => b.any (fun vb => vb.name == va.name))

/-- Merge two possible-type lists under a mode (structural equality). -/
def mergePossibleTypes : MergeMode → List IntrospectionTypeRef → List IntrospectionTypeRef →
    List IntrospectionTypeRef
  | .Union, a, b => a ++ b.filter (fun rb => !(a.any (fun ra => ra == rb)))
  | .Intersection, a, b => a.filter (fun ra => b.any (fun rb => rb == ra))

/-- Merge two same-named type descriptions; their kinds must agree. -/
def mergeTypes (mode : MergeMode) (a b : IntrospectionType) : Except GoErr IntrospectionType :=
  if a.kind != b.kind then
    .error (.err ("can not merge type " ++ a.name ++ ": differing kinds"))
  else
    match mergeFieldLists mode a.fields b.fields with
    | .error e => .error (wrapGo ("merging type " ++ a.name ++ ": ") e)
    | .ok fs =>
      match mergeInputLists mode a.inputFields b.inputFields with
      | .error e => .error (wrapGo ("merging type " ++ a.name ++ ": ") e)
      | .ok ifs =>
        .ok { name := a.name, kind := a.kind, fields := fs, inputFields := ifs,
              possibleTypes := mergePossibleTypes mode a.possibleTypes b.possibleTypes,
              enumValues := mergeEnumValues mode a.enumValues b.enumValues }

/-- First duplicated type name in a list, if any. -/
def dupName : List IntrospectionType → Option String
  | [] => none
  | t :: rest => if rest.any (fun u => u.name == t.name) then some t.name else dupName rest

/-- Merge the types of the first list against the second: a type present
in both is merged; a type only in the first list is kept under `Union` and
dropped under `Intersection`. -/
def mergeMatched (mode : MergeMode) : List IntrospectionType → List IntrospectionType →
    Except GoErr (List IntrospectionType)
  | [], _ => .ok []
  | ta :: rest, b =>
    match b.find? (fun tb => tb.name == ta.name) with
    | none =>
      match mergeMatched mode rest b with
      | .error e => .error e
      | .ok l => .ok (if mode = .Union then ta :: l else l)
    | some tb =>
      match mergeTypes mode ta tb with
      | .error e => .error e
      | .ok t =>
        match mergeMatched mode rest b with
        | .error e => .error e
        | .ok l => .ok (t :: l)

/-- Merge two schemas under a mode; under `Union` the second schema's
types absent from the first are appended. -/
def mergeSchemas (mode : MergeMode) (a b : IntrospectionQueryResult) :
    Except GoErr IntrospectionQueryResult :=
  match dupName a.schema.types with
  | some n => .error (.err ("duplicate type " ++ n))
  | none =>
    match dupName b.schema.types with
    | some n => .error (.err ("duplicate type " ++ n))
    | none =>
      match mergeMatched mode a.schema.types b.schema.types with
      | .error e => .error e
      | .ok merged =>
        if mode = .Union then
          .ok ⟨⟨merged ++ b.schema.types.filter
            (fun tb => !(a.schema.types.any (fun ta => ta.name == tb.name)))⟩⟩
        else
          .ok ⟨⟨merged⟩⟩

/-- Fold `mergeSchemas` over the tail, starting from an accumulator. -/
def mergeSchemaSliceAux (mode : MergeMode) (acc : IntrospectionQueryResult) :
    List IntrospectionQueryResult → Except GoErr IntrospectionQueryResult
  | [] => .ok acc
  | s :: rest =>
    match mergeSchemas mode acc s with
    | .error e => .error e
    | .ok m => mergeSchemaSliceAux mode m rest

/-- `mergeSchemaSlice`: merge a list of schemas pairwise from the left; a
single schema is returned unchanged. -/
def mergeSchemaSlice : List IntrospectionQueryResult → MergeMode →
    Except GoErr IntrospectionQueryResult
  | [], _ => .error (.err "no schemas to merge")
  | s :: rest, mode => mergeSchemaSliceAux mode s rest

/-! ## Sorting of service and version names (`sort.Strings`) -/

/-- Lexicographic comparison of char lists by code point. -/
def charsLe : List Char → List Char → Bool
  | [], _ => true
  | _ :: _, [] => false
  | a :: as, b :: bs =>
    if a.toNat < b.toNat then true
    else if b.toNat < a.toNat then false
    else charsLe as bs

/-- Lexicographic string comparison (Go compares byte-wise; for the ASCII
names appearing in schemas this agrees with code-point order). -/
def strLe (a b : String) : Bool := charsLe a.toList b.toList

/-- Insert into a sorted list of strings. -/
def insertSorted (s : String) : List String → List String
  | [] => [s]
  | x :: rest => if strLe s x then s :: x :: rest else x :: insertSorted s rest

/-- Lexicographic insertion sort, modelling `sort.Strings`. -/
def sortStrings : List String → List String
  | [] => []
  | x :: rest => insertSorted x (sortStrings rest)

/-- `serviceSchemas`: the service → version → schema table. Go maps have
unique keys; theorems quantifying over tables assume key uniqueness where
it matters. -/
abbrev ServiceSchemas := List (String × List (String × IntrospectionQueryResult))

/-- Intersect all versions of one service, visiting versions in sorted
order. -/
def intersectOne (versions : List (String × IntrospectionQueryResult)) :
    Except GoErr IntrospectionQueryResult :=
  mergeSchemaSlice
    ((sortStrings (versions.map Prod.fst)).filterMap (fun v => lookupA versions v))
    .Intersection

/-- Build `serviceSchemasByName` for the given (sorted) service names:
each service's versions are intersected. A service name absent from the
table yields no versions (unreachable from `ConvertVersionedSchemas`,
which passes exactly the table's keys). -/
def intersectServices (schemas : ServiceSchemas) : List String →
    Except GoErr (List (String × IntrospectionQueryResult))
  | [] => .ok []
  | s :: rest =>
    match intersectOne ((lookupA schemas s).getD []) with
    | .error e => .error e
    | .ok iqr =>
      match intersectServices schemas rest with
      | .error e => .error e
      | .ok l => .ok ((s, iqr) :: l)

/-- The per-service intersection stage of `ConvertVersionedSchemas`:
sorted service names, each mapped to the intersection of its versions. -/
def intersectedSchemas (schemas : ServiceSchemas) :
    Except GoErr (List (String × IntrospectionQueryResult)) :=
  intersectServices schemas (sortStrings (schemas.map Prod.fst))

/-! ## Validations -/

/-- Does an introspected type carry a field of the given name? -/
def typHasField (typ : IntrospectionType) (fname : String) : Bool :=
  typ.fields.any (fun f => f.name == fname)

/-- Per-service loop body of `validateFederationKeys`: a type with the
object's name that carries the `_federation` marker (a "root object") but
not the requested key field is an invalid federation key. -/
def vfkTypes (objName keyField : String) : List IntrospectionType → Except GoErr Unit
  | [] => .ok ()
  | typ :: rest =>
    if typ.name == objName && typHasField typ federationField && !(typHasField typ keyField) then
      .error (.err ("Invalid federation key " ++ keyField))
    else
      vfkTypes objName keyField rest

/-- `validateFederationKeys`: every service whose copy of the object is a
root object (carries `_federation`) must expose the key field. The Go
function receives `serviceNames` plus the schema map and indexes the map
at exactly those keys; the model iterates the table, whose keys are the
sorted service names. Of the `*graphql.Object` argument only its name is
read. -/
def validateFederationKeys : List (String × IntrospectionQueryResult) → String → String →
    Except GoErr Unit
  | [], _, _ => .ok ()
  | (_, iqr) :: rest, objName, keyField =>
    match vfkTypes objName keyField iqr.schema.types with
    | .error e => .error e
    | .ok () => validateFederationKeys rest objName keyField

/-- Is the object federated (marker field present) on at least one
service? -/
def federatedOnSome (byName : List (String × IntrospectionQueryResult)) (objName : String) : Bool :=
  byName.any (fun p => p.2.schema.types.any
    (fun typ => typ.name == objName && typHasField typ federationField))

/-- Per-service loop body of `validateFederatedObjects`: a type with the
object's name lacking the marker is a partial federated object. -/
def vfoTypes (objName : String) : List IntrospectionType → Except GoErr Unit
  | [] => .ok ()
  | typ :: rest =>
    if typ.name == objName && !(typHasField typ federationField) then
      .error (.err ("Object " ++ objName ++ " exists on another server and is not federated"))
    else
      vfoTypes objName rest

/-- Service loop of `validateFederatedObjects`. -/
def vfoServices (objName : String) : List (String × IntrospectionQueryResult) → Except GoErr Unit
  | [] => .ok ()
  | (_, iqr) :: rest =>
    match vfoTypes objName iqr.schema.types with
    | .error e => .error e
    | .ok () => vfoServices objName rest

/-- `validateFederatedObjects`: if the object is federated on some service
and is not `Query`/`Mutation`, every service declaring it must declare its
marker. -/
def validateFederatedObjects (byName : List (String × IntrospectionQueryResult))
    (objName : String) : Except GoErr Unit :=
  if federatedOnSome byName objName && objName != "Query" && objName != "Mutation" then
    vfoServices objName byName
  else
    .ok ()

/-- The `ConvertVersionedSchemas` loop calling `validateFederatedObjects`
for every name of the parsed type table, wrapping any error. -/
def validateAllFederatedObjects (byName : List (String × IntrospectionQueryResult)) :
    List (String × GNamedType) → Except GoErr Unit
  | [] => .ok ()
  | (name, _) :: rest =>
    match validateFederatedObjects byName name with
    | .error e =>
      .error (wrapGo ("Expected all services with object " ++ name ++ " to be federated: ") e)
    | .ok () => validateAllFederatedObjects byName rest

/-- The string Go's `fmt.Sprintf("%s", fieldReturnType)` produces for the
`*introspectionTypeRef` returned by `getRootType` (whose `OfType` is
always nil): fmt dereferences a top-level struct pointer as `&\x7b...\x7d`
with each field formatted by `%s`, and a nil pointer field under `%s`
renders in fmt's bad-verb form. The source builds its expected
entry-point name from the reference value itself, not `.Name`, so the
result contains braces and spaces and can only match a field name that
literally contains them. -/
def goStringOfRootRef (t : IntrospectionTypeRef) : String :=
  "&\x7b" ++ t.kind ++ " " ++ t.name ++ " %!s(*federation.introspectionTypeRef=<nil>)\x7d"

/-- Key identifying a `*graphql.Field`: the (type name, field name) pair,
or `none` for the nil field pointer obtained when an introspected field is
missing from the merged object. -/
abbrev FieldKey := Option (String × String)

/-- `FieldInfo`: the set of services that can resolve a field (Go's
`Services map[string]bool`, only ever written with `true`). -/
structure FieldInfo where
  services : List String
deriving Repr, DecidableEq

/-- `Fields map[*graphql.Field]*FieldInfo`, keyed as in `FieldKey`. -/
abbrev FieldInfos := List (FieldKey × FieldInfo)

/-- Record that a service can resolve a field (`info.Services[service] =
true`, creating the `FieldInfo` on first use). -/
def addServiceInfo (infos : FieldInfos) (key : FieldKey) (service : String) : FieldInfos :=
  match lookupA infos key with
  | some info => insertReplace infos key ⟨insertNew info.services service⟩
  | none => infos ++ [(key, ⟨[service]⟩)]

/-- Inner loop of the shadow-type check, over the merged return object's
fields: on finding `_federation` resolved by other services only, the
check errors only when the `Federation` object carries a field equal to
the fmt-rendered expected name (see `goStringOfRootRef`). A missing
`FieldInfo` entry would dereference nil in Go. -/
def shadowCheckFields (types : TypeTable) (infos : FieldInfos) (service fieldName : String)
    (retRef : IntrospectionTypeRef) (retObjName : String) :
    List (String × GField) → Except GoErr Unit
  | [] => .ok ()
  | (name, _) :: rest =>
    if name == federationField then
      match lookupA infos (some (retRef.name, name)) with
      | none => .error (.panic "runtime error: invalid memory address or nil pointer dereference")
      | some info =>
        if service ∈ info.services then
          shadowCheckFields types infos service fieldName retRef retObjName rest
        else
          let federatedFieldName := service ++ "_" ++ goStringOfRootRef retRef
          if fieldName == federatedFieldName then
            shadowCheckFields types infos service fieldName retRef retObjName rest
          else
            match lookupA types "Federation" with
            | some (.object fedObj) =>
              if fedObj.fields.any (fun p => p.1 == federatedFieldName) then
                .error (.err ("Field func " ++ fieldName ++ " can not return shadow type " ++ retObjName))
              else
                shadowCheckFields types infos service fieldName retRef retObjName rest
            | _ => shadowCheckFields types infos service fieldName retRef retObjName rest
    else
      shadowCheckFields types infos service fieldName retRef retObjName rest

/-- Field loop of the shadow-type check for one introspected object type:
only fields whose innermost return type is an OBJECT are examined; the
merged table must resolve that name to an object. A nil type reference
would make `getRootType` dereference nil. -/
def shadowCheckTypFields (types : TypeTable) (infos : FieldInfos) (service : String) :
    List IntrospectionField → Except GoErr Unit
  | [] => .ok ()
  | field :: rest =>
    match field.type with
    | none => .error (.panic "runtime error: invalid memory address or nil pointer dereference")
    | some tref =>
      let root := getRootType tref
      if root.kind == "OBJECT" then
        match lookupA types root.name with
        | some (.object retObj) =>
          match shadowCheckFields types infos service field.name root retObj.name retObj.fields with
          | .error e => .error e
          | .ok () => shadowCheckTypFields types infos service rest
        | _ => .error (.err ("Return type " ++ root.name ++ " is not a graphql object"))
      else
        shadowCheckTypFields types infos service rest

/-- Type loop of the shadow-type check for one service. -/
def shadowCheckTyps (types : TypeTable) (infos : FieldInfos) (service : String) :
    List IntrospectionType → Except GoErr Unit
  | [] => .ok ()
  | typ :: rest =>
    if typ.kind == "OBJECT" then
      match shadowCheckTypFields types infos service typ.fields with
      | .error e => .error e
      | .ok () => shadowCheckTyps types infos service rest
    else
      shadowCheckTyps types infos service rest

/-- `validateFieldsReturningFederatedObject`: scan every service's fields
returning objects for shadow types (see `shadowCheckFields` for what the
source actually compares). -/
def validateFieldsReturningFederatedObject (byName : List (String × IntrospectionQueryResult))
    (types : TypeTable) (infos : FieldInfos) : Except GoErr Unit :=
  match byName with
  | [] => .ok ()
  | (service, iqr) :: rest =>
    match shadowCheckTyps types infos service iqr.schema.types with
    | .error e => .error e
    | .ok () => validateFieldsReturningFederatedObject rest types infos

/-! ## The annotation loop of `ConvertVersionedSchemas` -/

/-- `strings.SplitN(s, "_", 2)` specialized to one underscore: split at
the first underscore if any. -/
def splitCharsAtUnderscore : List Char → Option (List Char × List Char)
  | [] => none
  | c :: cs =>
    if c = '_' then some ([], cs)
    else
      match splitCharsAtUnderscore cs with
      | none => none
      | some (a, b) => some (c :: a, b)

/-- `strings.SplitN(name, "_", 2)`: `[before, after]` around the first
underscore, or `[name]` when there is none. -/
def splitN2Underscore (s : String) : List String :=
  match splitCharsAtUnderscore s.toList with
  | none => [s]
  | some (a, b) => [String.mk a, String.mk b]

/-- Add a service to the `FederatedKey` set of every field of the object
whose name is among the entry input's field names (the annotation step;
`f.FederatedKey[service] = true`). -/
def addFedKeyField (keys : List String) (service : String) (p : String × GField) :
    String × GField :=
  if p.1 ∈ keys then (p.1, { p.2 with federatedKey := insertNew p.2.federatedKey service }) else p

/-- `addFedKeyField` lifted to a named type (non-objects unchanged;
the annotated name is always an object). -/
def addFedKeyNamed (nt : GNamedType) (service : String) (keys : List String) : GNamedType :=
  match nt with
  | .object o => .object { o with fields := o.fields.map (addFedKeyField keys service) }
  | other => other

/-- Apply the federation-key annotation for one entry argument to the
type table. -/
def addFedKey (types : TypeTable) (objName service : String) (keys : List String) : TypeTable :=
  types.map (fun p => if p.1 = objName then (p.1, addFedKeyNamed p.2 service keys) else p)

/-- Per-input-field validation of one entry argument: the federation keys
must be valid on every root service and present on the merged object. -/
def checkArgKeys (byName : List (String × IntrospectionQueryResult)) (obj : GObject)
    (inputTypeName : String) : List String → Except GoErr Unit
  | [] => .ok ()
  | k :: rest =>
    match validateFederationKeys byName obj.name k with
    | .error e => .error e
    | .ok () =>
      match lookupA obj.fields k with
      | some _ => checkArgKeys byName obj inputTypeName rest
      | none =>
        .error (.err ("input field " ++ k ++ " is not a field on the object " ++ inputTypeName))

/-- Process one argument of a Federation entry field: its root type must
be an input object of the merged schema; each of the input object's field
names is validated and then annotated onto the merged object. A nil
argument type reference would make `getRootType` dereference nil. The Go
code resolves the merged object once per entry field; only its field
names are read here, which the annotation never changes, so the snapshot
`obj` is passed down. -/
def processArg (byName : List (String × IntrospectionQueryResult))
    (service objName fieldName : String) (obj : GObject) (types : TypeTable)
    (arg : IntrospectionInputField) : Except GoErr TypeTable :=
  match arg.type with
  | none => .error (.panic "runtime error: invalid memory address or nil pointer dereference")
  | some aref =>
    let root := getRootType aref
    match lookupA types root.name with
    | some (.inputObject inObj) =>
      match checkArgKeys byName obj root.name (inObj.inputFields.map Prod.fst) with
      | .error e => .error e
      | .ok () => .ok (addFedKey types objName service (inObj.inputFields.map Prod.fst))
    | _ =>
      .error (.err ("Object " ++ root.name ++ " is not an input object, but it is an argument to the field " ++ fieldName))

/-- Argument loop of one Federation entry field. -/
def processArgs (byName : List (String × IntrospectionQueryResult))
    (service objName fieldName : String) (obj : GObject) (types : TypeTable) :
    List IntrospectionInputField → Except GoErr TypeTable
  | [] => .ok types
  | arg :: rest =>
    match processArg byName service objName fieldName obj types arg with
    | .error e => .error e
    | .ok t2 => processArgs byName service objName fieldName obj t2 rest

/-- Process one field of a service's `Federation` type: split the name
`<service>_<ObjectName>` at the first underscore (keeping only the part
after it), resolve the object in the merged schema, and process each
argument. -/
def processEntryField (byName : List (String × IntrospectionQueryResult)) (service : String)
    (types : TypeTable) (field : IntrospectionField) : Except GoErr TypeTable :=
  match splitN2Underscore field.name with
  | [_, objName] =>
    match lookupA types objName with
    | some (.object obj) => processArgs byName service objName field.name obj types field.args
    | _ => .error (.err ("Expected objectName " ++ objName ++ " on merged schema"))
  | _ => .error (.err ("Field " ++ field.name ++ " doesnt have an object name and service name"))

/-- Entry-field loop over a service's `Federation` type. -/
def processEntryFields (byName : List (String × IntrospectionQueryResult)) (service : String)
    (types : TypeTable) : List IntrospectionField → Except GoErr TypeTable
  | [] => .ok types
  | field :: rest =>
    match processEntryField byName service types field with
    | .error e => .error e
    | .ok t2 => processEntryFields byName service t2 rest

/-- Record the service for each introspected field of one object type in
the field-info table, keyed by the merged field (nil when the merged
object lacks the field). -/
def annotateFields (service typName : String) (objFields : List (String × GField)) :
    List IntrospectionField → FieldInfos → FieldInfos
  | [], infos => infos
  | f :: rest, infos =>
    let key : FieldKey :=
      match lookupA objFields f.name with
      | some _ => some (typName, f.name)
      | none => none
    annotateFields service typName objFields rest (addServiceInfo infos key service)

/-- `info.Services[service] = true` for every field of one introspected
OBJECT type; the unguarded Go type assertion on the merged type is a
panic when the name does not resolve to an object. -/
def annotateObject (service : String) (typ : IntrospectionType) (types : TypeTable)
    (infos : FieldInfos) : Except GoErr FieldInfos :=
  match lookupA types typ.name with
  | some (.object obj) => .ok (annotateFields service typ.name obj.fields typ.fields infos)
  | _ => .error (.panic "interface conversion: graphql.Type is not *graphql.Object")

/-- Process one introspected type of one service inside the main loop:
a type named `Federation` has its entry fields processed, and a type of
kind OBJECT has its fields annotated with the service (both apply to an
OBJECT named `Federation`). -/
def processTyp (byName : List (String × IntrospectionQueryResult)) (service : String)
    (st : TypeTable × FieldInfos) (typ : IntrospectionType) :
    Except GoErr (TypeTable × FieldInfos) :=
  match (if typ.name == "Federation" then processEntryFields byName service st.1 typ.fields
         else .ok st.1) with
  | .error e => .error e
  | .ok t2 =>
    if typ.kind == "OBJECT" then
      match annotateObject service typ t2 st.2 with
      | .error e => .error e
      | .ok i2 => .ok (t2, i2)
    else
      .ok (t2, st.2)

/-- Type loop of the main annotation loop for one service. -/
def processTyps (byName : List (String × IntrospectionQueryResult)) (service : String) :
    List IntrospectionType → TypeTable → FieldInfos → Except GoErr (TypeTable × FieldInfos)
  | [], t, i => .ok (t, i)
  | typ :: rest, t, i =>
    match processTyp byName service (t, i) typ with
    | .error e => .error e
    | .ok (t2, i2) => processTyps byName service rest t2 i2

/-- Service loop of the main annotation loop (services in sorted order). -/
def processServices (byName : List (String × IntrospectionQueryResult)) :
    List (String × IntrospectionQueryResult) → TypeTable → FieldInfos →
    Except GoErr (TypeTable × FieldInfos)
  | [], t, i => .ok (t, i)
  | (service, iqr) :: rest, t, i =>
    match processTyps byName service iqr.schema.types t i with
    | .error e => .error e
    | .ok (t2, i2) => processServices byName rest t2 i2

/-- `SchemaWithFederationInfo`: the result schema (its `Query`/`Mutation`
roots), the heap of named types those roots point into (kept explicit so
the `FederatedKey` annotations remain observable), and the field → service
table. -/
structure SchemaWithFederationInfo where
  query : Option GNamedType
  mutation : Option GNamedType
  types : TypeTable
  fields : FieldInfos
deriving Repr, DecidableEq

/-- `ConvertVersionedSchemas`: intersect versions per service, union
across services, parse the merged schema, validate federated objects,
process Federation entry points and annotate per-field services, and
validate shadow types. -/
def ConvertVersionedSchemas (schemas : ServiceSchemas) :
    Except GoErr SchemaWithFederationInfo :=
  match intersectedSchemas schemas with
  | .error e => .error e
  | .ok byName =>
    match mergeSchemaSlice (byName.map Prod.snd) .Union with
    | .error e => .error e
    | .ok merged =>
      match parseSchema merged with
      | .error e => .error e
      | .ok types =>
        match validateAllFederatedObjects byName types with
        | .error e => .error e
        | .ok () =>
          match processServices byName byName types [] with
          | .error e => .error e
          | .ok (types2, infos) =>
            match validateFieldsReturningFederatedObject byName types2 infos with
            | .error e => .error (wrapGo "Field funcs can not shadow objects: " e)
            | .ok () =>
              .ok { query := lookupA types2 "Query", mutation := lookupA types2 "Mutation",
                    types := types2, fields := infos }

/-- Did the call return normally (no error, no panic)? -/
def isOkE {α : Type} : Except GoErr α → Bool
  | .ok _ => true
  | .error _ => false

/-! ## Concrete service tables used as test inputs -/

/-- A non-null type reference to a named type. -/
def tref (k n : String) : Option IntrospectionTypeRef := some (.base k n)

/-- An introspected field without arguments. -/
def mkF (n : String) (t : Option IntrospectionTypeRef) : IntrospectionField := ⟨n, t, []⟩

/-- An introspected field with arguments. -/
def mkFA (n : String) (t : Option IntrospectionTypeRef) (args : List IntrospectionInputField) :
    IntrospectionField := ⟨n, t, args⟩

/-- An introspected OBJECT type. -/
def mkObj (n : String) (fs : List IntrospectionField) : IntrospectionType :=
  ⟨n, "OBJECT", fs, [], [], []⟩

/-- An introspected INPUT_OBJECT type. -/
def mkInputObj (n : String) (ifs : List IntrospectionInputField) : IntrospectionType :=
  ⟨n, "INPUT_OBJECT", [], ifs, [], []⟩

/-- An introspected SCALAR type. -/
def mkScalar (n : String) : IntrospectionType := ⟨n, "SCALAR", [], [], [], []⟩

/-- A single unnamed version of a service schema. -/
def oneVersion (iqr : IntrospectionQueryResult) : List (String × IntrospectionQueryResult) :=
  [("", iqr)]

/-- Service A of the shadow-type scenario: `foo` federated (marker plus
`name`), the `Federation` type with entry `A_foo(keys: fooKeys)`. -/
def shadowSchemaA : IntrospectionQueryResult := ⟨⟨[
  mkObj "foo" [mkF "_federation" (tref "SCALAR" "string"), mkF "name" (tref "SCALAR" "string")],
  mkObj "Federation" [mkFA "A_foo" (tref "OBJECT" "foo") [⟨"keys", tref "INPUT_OBJECT" "fooKeys"⟩]],
  mkInputObj "fooKeys" [⟨"name", tref "SCALAR" "string"⟩],
  mkScalar "string"]⟩⟩

/-- Service B of the shadow-type scenario: declares `Query.g: foo` but no
`B_foo` entry point — the spec's scenario 4. -/
def shadowSchemaB : IntrospectionQueryResult := ⟨⟨[
  mkObj "Query" [mkF "g" (tref "OBJECT" "foo")]]⟩⟩

/-- The shadow-type service table (spec scenario 4). -/
def shadowTable : ServiceSchemas :=
  [("A", oneVersion shadowSchemaA), ("B", oneVersion shadowSchemaB)]

/-- Service A of the entry-prefix scenario: only a scalar. -/
def c9SchemaA : IntrospectionQueryResult := ⟨⟨[mkScalar "string"]⟩⟩

/-- Service B of the entry-prefix scenario: declares the entry point
`A_foo` (prefix `A`, another service's name) in its own schema. -/
def c9SchemaB : IntrospectionQueryResult := ⟨⟨[
  mkObj "foo" [mkF "name" (tref "SCALAR" "string")],
  mkObj "Federation" [mkFA "A_foo" (tref "OBJECT" "foo") [⟨"keys", tref "INPUT_OBJECT" "fooKeys"⟩]],
  mkInputObj "fooKeys" [⟨"name", tref "SCALAR" "string"⟩],
  mkScalar "string"]⟩⟩

/-- The entry-prefix service table: entry `A_foo` lives on service B. -/
def c9Table : ServiceSchemas :=
  [("A", oneVersion c9SchemaA), ("B", oneVersion c9SchemaB)]

/-- A table whose single Federation entry point `A_foo` has zero
arguments. -/
def zeroArgEntrySchema : IntrospectionQueryResult := ⟨⟨[
  mkObj "foo" [mkF "name" (tref "SCALAR" "string")],
  mkObj "Federation" [mkFA "A_foo" (tref "OBJECT" "foo") []],
  mkScalar "string"]⟩⟩

/-- The zero-argument-entry service table. -/
def zeroArgEntryTable : ServiceSchemas := [("A", oneVersion zeroArgEntrySchema)]

/-- A schema with a cyclic object reference: `foo.s1nest: foo`. -/
def cyclicSchema : IntrospectionQueryResult := ⟨⟨[
  mkObj "foo" [mkF "name" (tref "SCALAR" "string"), mkF "s1nest" (tref "OBJECT" "foo")],
  mkObj "Query" [mkF "s1f" (tref "OBJECT" "foo")],
  mkScalar "string"]⟩⟩

/-- A table where service A federates `foo` (marker present) while
service B declares `foo` without the marker — the spec's scenario 5. -/
def partialFedTable : ServiceSchemas := [
  ("A", oneVersion ⟨⟨[
    mkObj "foo" [mkF "_federation" (tref "SCALAR" "string"), mkF "name" (tref "SCALAR" "string")],
    mkScalar "string"]⟩⟩),
  ("B", oneVersion ⟨⟨[
    mkObj "foo" [mkF "name" (tref "SCALAR" "string")],
    mkScalar "string"]⟩⟩)]

/-- A table realizing the spec's scenario 6: entry `B_foo(keys: \x7bname,
age\x7d)` on service B while service A's federated `foo` has no `age`
field. -/
def badKeyTable : ServiceSchemas := [
  ("A", oneVersion ⟨⟨[
    mkObj "foo" [mkF "_federation" (tref "SCALAR" "string"), mkF "name" (tref "SCALAR" "string")],
    mkScalar "string"]⟩⟩),
  ("B", oneVersion ⟨⟨[
    mkObj "foo" [mkF "_federation" (tref "SCALAR" "string"), mkF "name" (tref "SCALAR" "string"),
                 mkF "age" (tref "SCALAR" "string")],
    mkObj "Federation" [mkFA "B_foo" (tref "OBJECT" "foo")
      [⟨"keys", tref "INPUT_OBJECT" "fooKeys"⟩]],
    mkInputObj "fooKeys" [⟨"name", tref "SCALAR" "string"⟩, ⟨"age", tref "SCALAR" "string"⟩],
    mkScalar "string"]⟩⟩)]

/-- Name a pipeline stage's concrete result in witness statements (the
default is never reached there). -/
def okOrE {α : Type} (x : Except GoErr α) (d : α) : α :=
  match x with
  | .ok v => v
  | .error _ => d

/-- The empty introspection result, a placeholder default. -/
def emptyIqr : IntrospectionQueryResult := ⟨⟨[]⟩⟩

/-- The intersected table of the partial-federation scenario. -/
def pfByName : List (String × IntrospectionQueryResult) :=
  okOrE (intersectedSchemas partialFedTable) []

/-- Stages of the bad-key scenario: intersected table, union merge, parsed
type table, and service B's pieces. -/
def bkByName : List (String × IntrospectionQueryResult) :=
  okOrE (intersectedSchemas badKeyTable) []

def bkMerged : IntrospectionQueryResult :=
  okOrE (mergeSchemaSlice (bkByName.map Prod.snd) .Union) emptyIqr

def bkTypes : TypeTable := okOrE (parseSchema bkMerged) []

def bkEntry : IntrospectionField :=
  mkFA "B_foo" (tref "OBJECT" "foo") [⟨"keys", tref "INPUT_OBJECT" "fooKeys"⟩]

def bkSvcB : IntrospectionQueryResult := ⟨⟨[
  mkObj "foo" [mkF "_federation" (tref "SCALAR" "string"), mkF "name" (tref "SCALAR" "string"),
               mkF "age" (tref "SCALAR" "string")],
  mkObj "Federation" [bkEntry],
  mkInputObj "fooKeys" [⟨"name", tref "SCALAR" "string"⟩, ⟨"age", tref "SCALAR" "string"⟩],
  mkScalar "string"]⟩⟩

/-- Stages of the entry-prefix scenario. -/
def c9ByName : List (String × IntrospectionQueryResult) :=
  okOrE (intersectedSchemas c9Table) []

def c9Result : SchemaWithFederationInfo :=
  okOrE (ConvertVersionedSchemas c9Table) ⟨none, none, [], []⟩

/-- Stages of the shadow scenario, reused for the annotation claims. -/
def shByName : List (String × IntrospectionQueryResult) :=
  okOrE (intersectedSchemas shadowTable) []

def shMerged : IntrospectionQueryResult :=
  okOrE (mergeSchemaSlice (shByName.map Prod.snd) .Union) emptyIqr

def shTypes : TypeTable := okOrE (parseSchema shMerged) []

def shResult : SchemaWithFederationInfo :=
  okOrE (ConvertVersionedSchemas shadowTable) ⟨none, none, [], []⟩

def shEntryA : IntrospectionField :=
  mkFA "A_foo" (tref "OBJECT" "foo") [⟨"keys", tref "INPUT_OBJECT" "fooKeys"⟩]

/-- A service whose single Federation entry has no underscore in its
name. -/
def badNameSchema : IntrospectionQueryResult := ⟨⟨[
  mkObj "foo" [mkF "name" (tref "SCALAR" "string")],
  mkObj "Federation" [mkFA "badname" (tref "OBJECT" "foo") []],
  mkScalar "string"]⟩⟩

def badNameTable : ServiceSchemas := [("A", oneVersion badNameSchema)]

def bnByName : List (String × IntrospectionQueryResult) :=
  okOrE (intersectedSchemas badNameTable) []

def bnMerged : IntrospectionQueryResult :=
  okOrE (mergeSchemaSlice (bnByName.map Prod.snd) .Union) emptyIqr

def bnTypes : TypeTable := okOrE (parseSchema bnMerged) []

/-- Two types sharing one name. -/
def dupTypesSchema : IntrospectionQueryResult := ⟨⟨[mkScalar "x", mkScalar "x"]⟩⟩

/-! ## Statement vocabulary -/

/-- The `FederatedKey` service set of a merged object's field in a result
schema (empty when absent). -/
def fedKeyOf (r : SchemaWithFederationInfo) (objName fieldName : String) : List String :=
  match lookupA r.types objName with
  | some (.object o) =>
    match lookupA o.fields fieldName with
    | some fld => fld.federatedKey
    | none => []
  | _ => []

/-- Does the field-info table record the service for the field key
(`Fields[F].Services[S] = true`)? -/
def hasServiceB (infos : FieldInfos) (key : FieldKey) (service : String) : Bool :=
  match lookupA infos key with
  | some info => service ∈ info.services
  | none => false

/-- Is the object federated, as an OBJECT type carrying the marker, on at
least one service of the table? -/
def federatedAsObject (byName : List (String × IntrospectionQueryResult)) (objName : String) :
    Bool :=
  byName.any (fun p => p.2.schema.types.any
    (fun typ => typ.name == objName && typ.kind == "OBJECT" && typHasField typ federationField))

/-- Is the service's field of the object recorded with `FederatedKey
= true` in the type table? -/
def hasFedKeyB (types : TypeTable) (objName fieldName service : String) : Bool :=
  match lookupA types objName with
  | some (.object o) =>
    match lookupA o.fields fieldName with
    | some fld => service ∈ fld.federatedKey
    | none => false
  | _ => false

/-- The field-name list of the object stored under a name (none when the
name is absent or not an object). -/
def fieldNamesOf : GNamedType → Option (List String)
  | .object o => some (o.fields.map Prod.fst)
  | _ => none

/-- View of a table: the field names of the object stored under `n`. -/
def objFieldNames (t : TypeTable) (n : String) : Option (List String) :=
  (lookupA t n).bind fieldNamesOf

/-- View of a table: the `name` field of the object stored under `n`. -/
def objGName (t : TypeTable) (n : String) : Option String :=
  (lookupA t n).bind (fun nt => match nt with | .object o => some o.name | _ => none)

/-- View of a table: the input fields of the input object stored under
`n`. -/
def ioFields (t : TypeTable) (n : String) : Option (List (String × GType)) :=
  (lookupA t n).bind (fun nt => match nt with | .inputObject io => some io.inputFields | _ => none)

/-- The annotation loop only adds `FederatedKey` entries: its output table
has the same objects, field names and input objects as its input, and at
least the input's federated keys. -/
def shapeLe (t t' : TypeTable) : Prop :=
  (∀ n, objFieldNames t' n = objFieldNames t n) ∧
  (∀ n, objGName t' n = objGName t n) ∧
  (∀ n, ioFields t' n = ioFields t n) ∧
  (∀ n K s, hasFedKeyB t n K s = true → hasFedKeyB t' n K s = true)

/-- The field-info table only grows. -/
def infosLe (i i' : FieldInfos) : Prop :=
  ∀ k s, hasServiceB i k s = true → hasServiceB i' k s = true

/-- All checks the entry-argument loop performs on one argument, stated
against a table (the views used are stable under annotation): the
argument's type reference is non-nil, its root resolves to an input
object, and each of the input object's field names passes
`validateFederationKeys` and is a field of the merged object. -/
def argCheckOK (byName : List (String × IntrospectionQueryResult)) (oname : String)
    (fns : List String) (t : TypeTable) (arg : IntrospectionInputField) : Prop :=
  ∃ aref, arg.type = some aref ∧
    ∃ ifls, ioFields t (getRootType aref).name = some ifls ∧
      ∀ K ∈ ifls.map Prod.fst,
        isOkE (validateFederationKeys byName oname K) = true ∧ K ∈ fns

/-- All checks `processEntryField` performs on one Federation entry
field: the name splits at an underscore, the part after it resolves to an
object of the merged schema, and every argument passes `argCheckOK`. -/
def entryOK (byName : List (String × IntrospectionQueryResult)) (t : TypeTable)
    (field : IntrospectionField) : Prop :=
  ∃ sp objName, splitN2Underscore field.name = [sp, objName] ∧
    ∃ oname fns, objGName t objName = some oname ∧ objFieldNames t objName = some fns ∧
      ∀ arg ∈ field.args, argCheckOK byName oname fns t arg

/-- The annotations one Federation entry field deposits: for each
argument whose root input object carries field name K that the merged
object also carries, the declaring service is recorded in that merged
field's `FederatedKey` set of the final table. Hypotheses are stated
against a reference table whose views agree with the processing-time
table. -/
def entryEstablish (service : String) (types tFinal : TypeTable) (field : IntrospectionField) :
    Prop :=
  ∀ sp objName, splitN2Underscore field.name = [sp, objName] →
    ∀ arg ∈ field.args, ∀ aref, arg.type = some aref →
      ∀ ifls, ioFields types (getRootType aref).name = some ifls →
        ∀ K ∈ ifls.map Prod.fst, ∀ fns, objFieldNames types objName = some fns → K ∈ fns →
          hasFedKeyB tFinal objName K service = true

/-- Union-merge preservation: every type of `s` appears in `m` with the
same name and kind and with at least its field names. -/
def typeFieldSuperset (s m : IntrospectionQueryResult) : Prop :=
  ∀ t ∈ s.schema.types, ∃ tm ∈ m.schema.types,
    tm.name = t.name ∧ tm.kind = t.kind ∧
    ∀ f ∈ t.fields, ∃ fm ∈ tm.fields, fm.name = f.name

/-- The name under which a parsed named type is stored. -/
def namedName : GNamedType → String
  | .object o => o.name
  | .inputObject io => io.name
  | .scalar n => n
  | .union u => u.name
  | .enum e => e.name

/-- Every entry of the table is stored under its own name. -/
def nameCoherent (all : TypeTable) : Prop :=
  ∀ n nt, lookupA all n = some nt → namedName nt = n

/-- The type kinds `parseSchema` accepts. -/
def validKindB (k : String) : Bool :=
  k == "OBJECT" || k == "INPUT_OBJECT" || k == "SCALAR" || k == "UNION" || k == "ENUM"

/-- The shell `parseSchema`'s first pass creates for a type (arbitrary for
invalid kinds, which error out). -/
def shellOf (t : IntrospectionType) : GNamedType :=
  if t.kind == "OBJECT" then .object ⟨t.name, []⟩
  else if t.kind == "INPUT_OBJECT" then .inputObject ⟨t.name, []⟩
  else if t.kind == "SCALAR" then .scalar t.name
  else if t.kind == "UNION" then .union ⟨t.name, []⟩
  else .enum ⟨t.name, []⟩

/-! ## Claim theorems -/

/-- C1: the claim says a field whose return type is an object federated on
another service, declared by a service offering no matching entry point,
makes `ConvertVersionedSchemas` fail with a shadow-type error. On the
spec's own scenario 4 — service A federates `foo` (marker plus entry
`A_foo`), service B declares `g: foo` with no `Federation` type at all,
hence no `B_foo` entry — the merge nevertheless succeeds: the shadow check
compares field names against the fmt-rendering of a struct pointer (see
`goStringOfRootRef`) and, where it does compare, errors when the entry is
present rather than absent. -/
theorem C1_shadow_type_not_rejected :
    (shadowSchemaA.schema.types.any
      (fun typ => typ.name == "foo" && typHasField typ federationField)) = true
    ∧ (shadowSchemaB.schema.types.any
      (fun typ => typ.name == "Query" &&
        typ.fields.any (fun f => f.name == "g" && f.type == tref "OBJECT" "foo"))) = true
    ∧ (shadowSchemaB.schema.types.any (fun typ => typ.name == "Federation")) = false
    ∧ isOkE (ConvertVersionedSchemas shadowTable) = true := by
  refine ⟨by decide, by decide, by decide, by decide⟩

/-- C7: `parseSchema` is total — it is defined below by structural
recursion (the only recursion is `lookupType`/`lookupTypeRef` descending
the finite `ofType` wrapper chain, and the two passes are plain list
folds), which is exactly the two-pass shells-then-fields design — and on
the cyclic schema `foo.s1nest: foo` it terminates with the expected
table. -/
theorem C7_parseSchema_total_on_cycles :
    parseSchema cyclicSchema = .ok [
      ("foo", .object ⟨"foo", [("name", ⟨[], .named "string", []⟩),
                               ("s1nest", ⟨[], .named "foo", []⟩)]⟩),
      ("Query", .object ⟨"Query", [("s1f", ⟨[], .named "foo", []⟩)]⟩),
      ("string", .scalar "string")] := by
  rfl

/-- C9: the service recorded by a `FederatedKey` annotation is the service
whose schema declares the entry field, not the prefix embedded in the
entry's name: with entry `A_foo` declared in service B's schema (and a
service `A` present in the table), the merged `foo.name` gets
`FederatedKey = \x7b"B"\x7d` and the prefix `A` is ignored. -/
theorem C9_fedkey_service_is_declaring_service :
    (c9SchemaB.schema.types.any
      (fun typ => typ.name == "Federation" && typ.fields.any (fun f => f.name == "A_foo"))) = true
    ∧ (c9Table.map Prod.fst).contains "A" = true
    ∧ (ConvertVersionedSchemas c9Table).map (fun r => fedKeyOf r "foo" "name") = .ok ["B"] := by
  refine ⟨by decide, by decide, by rfl⟩

/-- C6 counterexample: the claim says `ConvertVersionedSchemas` rejects
every entry point that does not have exactly one input-object argument; a
Federation entry `A_foo` with zero arguments is nevertheless accepted (the
source only iterates over the arguments that are present). -/
theorem C6_zero_argument_entry_accepted :
    (zeroArgEntrySchema.schema.types.any
      (fun typ => typ.name == "Federation" &&
        typ.fields.any (fun f => f.name == "A_foo" && f.args.isEmpty))) = true
    ∧ isOkE (ConvertVersionedSchemas zeroArgEntryTable) = true := by
  refine ⟨by decide, by decide⟩

/-! ## Association-list lemmas -/

theorem lookupA_mem {κ α : Type} [DecidableEq κ] :
    ∀ (l : List (κ × α)) (k : κ) (v : α), lookupA l k = some v → (k, v) ∈ l := by
  intro l k v h
  induction l with
  | nil => simp [lookupA] at h
  | cons p rest ih =>
    obtain ⟨k', v'⟩ := p
    simp only [lookupA] at h
    by_cases hk : k = k'
    · simp [hk] at h
      simp [hk, h]
    · simp [hk] at h
      exact List.mem_cons_of_mem _ (ih h)

theorem lookupA_insertReplace_self {κ α : Type} [DecidableEq κ] :
    ∀ (l : List (κ × α)) (k : κ) (v : α), lookupA (insertReplace l k v) k = some v := by
  intro l k v
  induction l with
  | nil => simp [insertReplace, lookupA]
  | cons p rest ih =>
    obtain ⟨k', v'⟩ := p
    simp only [insertReplace]
    by_cases hk : k = k'
    · simp [hk, lookupA]
    · simp [hk, lookupA, ih]

theorem lookupA_insertReplace_other {κ α : Type} [DecidableEq κ] :
    ∀ (l : List (κ × α)) (k : κ) (v : α) (n : κ), n ≠ k →
      lookupA (insertReplace l k v) n = lookupA l n := by
  intro l k v n hne
  induction l with
  | nil => simp [insertReplace, lookupA, hne]
  | cons p rest ih =>
    obtain ⟨k', v'⟩ := p
    simp only [insertReplace]
    by_cases hk : k = k'
    · subst hk
      simp [lookupA, hne]
    · simp only [if_neg hk, lookupA]
      by_cases hn : n = k'
      · simp [hn]
      · simp [hn, ih]

theorem lookupA_isSome_of_mem_insertReplace {κ α : Type} [DecidableEq κ] :
    ∀ (l : List (κ × α)) (k : κ) (v : α) (n : κ),
      (lookupA l n).isSome = true → (lookupA (insertReplace l k v) n).isSome = true := by
  intro l k v n h
  by_cases hn : n = k
  · subst hn
    rw [lookupA_insertReplace_self]
    rfl
  · rw [lookupA_insertReplace_other l k v n hn]
    exact h

theorem mem_insertNew_self : ∀ (l : List String) (s : String), s ∈ insertNew l s := by
  intro l s
  unfold insertNew
  by_cases h : s ∈ l
  · simp [h]
  · simp [h]

theorem mem_insertNew_of_mem : ∀ (l : List String) (s x : String), x ∈ l → x ∈ insertNew l s := by
  intro l s x hx
  unfold insertNew
  by_cases h : s ∈ l
  · simp [h, hx]
  · simp [h, hx]

/-! ## Characterizations of the pure validators -/

theorem isOkE_ok {α : Type} (a : α) : isOkE (Except.ok a : Except GoErr α) = true := rfl

theorem isOkE_error {α : Type} (e : GoErr) : isOkE (Except.error e : Except GoErr α) = false := rfl

theorem isOkE_vfkTypes (objName keyField : String) :
    ∀ l : List IntrospectionType,
      isOkE (vfkTypes objName keyField l) =
        l.all (fun typ => !(typ.name == objName && typHasField typ federationField &&
          !(typHasField typ keyField))) := by
  intro l
  induction l with
  | nil => rfl
  | cons typ rest ih =>
    rw [List.all_cons, ← ih]
    by_cases h : (typ.name == objName && typHasField typ federationField &&
        !(typHasField typ keyField)) = true
    · simp only [vfkTypes, h, if_true]
      simp [isOkE_error]
    · simp only [Bool.not_eq_true] at h
      simp only [vfkTypes, h, Bool.false_eq_true, if_false, Bool.not_false, Bool.true_and]

theorem vfkTypes_dichotomy (objName keyField : String) :
    ∀ l : List IntrospectionType,
      vfkTypes objName keyField l = .ok () ∨
      vfkTypes objName keyField l = .error (.err ("Invalid federation key " ++ keyField)) := by
  intro l
  induction l with
  | nil => left; rfl
  | cons typ rest ih =>
    simp only [vfkTypes]
    by_cases h : (typ.name == objName && typHasField typ federationField &&
        !(typHasField typ keyField)) = true
    · simp [h]
    · simp only [Bool.not_eq_true] at h
      simp [h, ih]

theorem isOkE_validateFederationKeys (objName keyField : String) :
    ∀ byName : List (String × IntrospectionQueryResult),
      isOkE (validateFederationKeys byName objName keyField) =
        byName.all (fun p => isOkE (vfkTypes objName keyField p.2.schema.types)) := by
  intro byName
  induction byName with
  | nil => rfl
  | cons p rest ih =>
    obtain ⟨sv, iqr⟩ := p
    rw [List.all_cons, ← ih]
    cases h : vfkTypes objName keyField iqr.schema.types with
    | error e => simp [validateFederationKeys, h, isOkE_error]
    | ok u => cases u; simp [validateFederationKeys, h, isOkE_ok]

theorem validateFederationKeys_dichotomy (objName keyField : String) :
    ∀ byName : List (String × IntrospectionQueryResult),
      validateFederationKeys byName objName keyField = .ok () ∨
      validateFederationKeys byName objName keyField =
        .error (.err ("Invalid federation key " ++ keyField)) := by
  intro byName
  induction byName with
  | nil => left; rfl
  | cons p rest ih =>
    obtain ⟨sv, iqr⟩ := p
    simp only [validateFederationKeys]
    rcases vfkTypes_dichotomy objName keyField iqr.schema.types with h | h
    · rw [h]
      exact ih
    · rw [h]
      right; rfl

theorem isOkE_vfoTypes (objName : String) :
    ∀ l : List IntrospectionType,
      isOkE (vfoTypes objName l) =
        l.all (fun typ => !(typ.name == objName && !(typHasField typ federationField))) := by
  intro l
  induction l with
  | nil => rfl
  | cons typ rest ih =>
    rw [List.all_cons, ← ih]
    by_cases h : (typ.name == objName && !(typHasField typ federationField)) = true
    · simp only [vfoTypes, h, if_true]
      simp [isOkE_error]
    · simp only [Bool.not_eq_true] at h
      simp only [vfoTypes, h, Bool.false_eq_true, if_false, Bool.not_false, Bool.true_and]

theorem isOkE_vfoServices (objName : String) :
    ∀ byName : List (String × IntrospectionQueryResult),
      isOkE (vfoServices objName byName) =
        byName.all (fun p => isOkE (vfoTypes objName p.2.schema.types)) := by
  intro byName
  induction byName with
  | nil => rfl
  | cons p rest ih =>
    obtain ⟨sv, iqr⟩ := p
    rw [List.all_cons, ← ih]
    cases h : vfoTypes objName iqr.schema.types with
    | error e => simp [vfoServices, h, isOkE_error]
    | ok u => cases u; simp [vfoServices, h, isOkE_ok]

theorem isOkE_validateAllFederatedObjects (byName : List (String × IntrospectionQueryResult)) :
    ∀ l : List (String × GNamedType),
      isOkE (validateAllFederatedObjects byName l) =
        l.all (fun p => isOkE (validateFederatedObjects byName p.1)) := by
  intro l
  induction l with
  | nil => rfl
  | cons p rest ih =>
    obtain ⟨name, nt⟩ := p
    rw [List.all_cons, ← ih]
    cases h : validateFederatedObjects byName name with
    | error e => simp [validateAllFederatedObjects, h, isOkE_error]
    | ok u => cases u; simp [validateAllFederatedObjects, h, isOkE_ok]

theorem isOkE_checkArgKeys (byName : List (String × IntrospectionQueryResult)) (obj : GObject)
    (inputTypeName : String) :
    ∀ keys : List String,
      isOkE (checkArgKeys byName obj inputTypeName keys) =
        keys.all (fun k => isOkE (validateFederationKeys byName obj.name k) &&
          (lookupA obj.fields k).isSome) := by
  intro keys
  induction keys with
  | nil => rfl
  | cons k rest ih =>
    rw [List.all_cons, ← ih]
    cases h : validateFederationKeys byName obj.name k with
    | error e => simp [checkArgKeys, h, isOkE_error]
    | ok u =>
      cases u
      cases hf : lookupA obj.fields k with
      | none => simp [checkArgKeys, h, hf, isOkE_ok, isOkE_error]
      | some fld => simp [checkArgKeys, h, hf, isOkE_ok]

/-! ## Shape and monotonicity lemmas for the annotation loop -/

theorem lookupA_addFedKey (t : TypeTable) (o s : String) (ks : List String) (n : String) :
    lookupA (addFedKey t o s ks) n =
      (lookupA t n).map (fun nt => if n = o then addFedKeyNamed nt s ks else nt) := by
  induction t with
  | nil => rfl
  | cons p rest ih =>
    obtain ⟨k, v⟩ := p
    simp only [addFedKey, List.map_cons]
    by_cases hk : k = o
    · subst hk
      simp only [if_pos rfl]
      by_cases hn : n = k
      · subst hn
        simp [lookupA]
      · simp only [lookupA, if_neg hn]
        simpa [addFedKey, hn] using ih
    · simp only [if_neg hk]
      by_cases hn : n = k
      · subst hn
        simp [lookupA, hk]
      · simp only [lookupA, if_neg hn]
        simpa [addFedKey] using ih

theorem fst_addFedKeyField (ks : List String) (s : String) (p : String × GField) :
    (addFedKeyField ks s p).1 = p.1 := by
  unfold addFedKeyField
  split <;> rfl

theorem lookupA_map_addFedKeyField (ks : List String) (s : String) :
    ∀ (fields : List (String × GField)) (K : String),
      lookupA (fields.map (addFedKeyField ks s)) K =
        (lookupA fields K).map (fun fld =>
          if K ∈ ks then { fld with federatedKey := insertNew fld.federatedKey s } else fld) := by
  intro fields K
  induction fields with
  | nil => rfl
  | cons p rest ih =>
    obtain ⟨k, fld⟩ := p
    simp only [List.map_cons]
    by_cases hk : K = k
    · subst hk
      simp only [addFedKeyField]
      by_cases hmem : K ∈ ks
      · rw [if_pos hmem]
        simp [lookupA, hmem]
      · rw [if_neg hmem]
        simp [lookupA, hmem]
    · have h1 : (addFedKeyField ks s (k, fld)).1 = k := fst_addFedKeyField ks s (k, fld)
      cases hsplit : addFedKeyField ks s (k, fld) with
      | mk k' fld' =>
        have hk' : k' = k := by rw [← h1, hsplit]
        subst hk'
        simp only [lookupA, if_neg hk]
        exact ih

theorem fieldNamesOf_addFedKeyNamed (nt : GNamedType) (s : String) (ks : List String) :
    fieldNamesOf (addFedKeyNamed nt s ks) = fieldNamesOf nt := by
  cases nt with
  | object o =>
    simp only [addFedKeyNamed, fieldNamesOf, List.map_map]
    congr 1
    apply List.map_congr_left
    intro p _
    exact fst_addFedKeyField ks s p
  | inputObject io => rfl
  | scalar n => rfl
  | union u => rfl
  | enum e => rfl

theorem objFieldNames_addFedKey (t : TypeTable) (o s : String) (ks : List String) (n : String) :
    objFieldNames (addFedKey t o s ks) n = objFieldNames t n := by
  unfold objFieldNames
  rw [lookupA_addFedKey]
  cases lookupA t n with
  | none => rfl
  | some nt =>
    by_cases hn : n = o
    · simp [hn, fieldNamesOf_addFedKeyNamed]
    · simp [hn]

theorem objGName_addFedKey (t : TypeTable) (o s : String) (ks : List String) (n : String) :
    objGName (addFedKey t o s ks) n = objGName t n := by
  unfold objGName
  rw [lookupA_addFedKey]
  cases lookupA t n with
  | none => rfl
  | some nt =>
    by_cases hn : n = o
    · cases nt <;> simp [hn, addFedKeyNamed]
    · simp [hn]

theorem ioFields_addFedKey (t : TypeTable) (o s : String) (ks : List String) (n : String) :
    ioFields (addFedKey t o s ks) n = ioFields t n := by
  unfold ioFields
  rw [lookupA_addFedKey]
  cases lookupA t n with
  | none => rfl
  | some nt =>
    by_cases hn : n = o
    · cases nt <;> simp [hn, addFedKeyNamed]
    · simp [hn]

theorem addFedKeyNamed_object (ob : GObject) (sv : String) (ks : List String) :
    addFedKeyNamed (.object ob) sv ks =
      .object { ob with fields := ob.fields.map (addFedKeyField ks sv) } := rfl

theorem hasFedKeyB_object (t : TypeTable) (n K s : String) (ob : GObject)
    (hl : lookupA t n = some (.object ob)) :
    hasFedKeyB t n K s = (match lookupA ob.fields K with
      | some fld => decide (s ∈ fld.federatedKey)
      | none => false) := by
  unfold hasFedKeyB
  rw [hl]

theorem hasFedKeyB_addFedKey_mono (t : TypeTable) (o sv : String) (ks : List String)
    (n K s : String) (h : hasFedKeyB t n K s = true) :
    hasFedKeyB (addFedKey t o sv ks) n K s = true := by
  unfold hasFedKeyB at h
  cases hl : lookupA t n with
  | none => rw [hl] at h; simp at h
  | some nt =>
    rw [hl] at h
    cases nt with
    | object ob =>
      replace h : (match lookupA ob.fields K with
        | some fld => decide (s ∈ fld.federatedKey)
        | none => false) = true := h
      by_cases hn : n = o
      · subst hn
        have hl2 : lookupA (addFedKey t n sv ks) n =
            some (.object { ob with fields := ob.fields.map (addFedKeyField ks sv) }) := by
          rw [lookupA_addFedKey, hl]
          simp [addFedKeyNamed_object]
        rw [hasFedKeyB_object _ _ _ _ _ hl2]
        rw [lookupA_map_addFedKeyField]
        cases hf : lookupA ob.fields K with
        | none => rw [hf] at h; simp at h
        | some fld =>
          rw [hf] at h
          simp only [Option.map_some']
          by_cases hmem : K ∈ ks
          · rw [if_pos hmem]
            simp only [Option.map_some', decide_eq_true_eq] at h ⊢
            exact mem_insertNew_of_mem _ _ _ h
          · rw [if_neg hmem]
            simpa using h
      · have hl2 : lookupA (addFedKey t o sv ks) n = some (.object ob) := by
          rw [lookupA_addFedKey, hl]
          simp [hn]
        rw [hasFedKeyB_object _ _ _ _ _ hl2]
        exact h
    | inputObject io => simp at h
    | scalar nn => simp at h
    | union u => simp at h
    | enum e => simp at h

theorem hasFedKeyB_addFedKey_establish (t : TypeTable) (o sv K : String) (ks : List String)
    (ob : GObject) (hlook : lookupA t o = some (.object ob))
    (hfield : (lookupA ob.fields K).isSome = true) (hks : K ∈ ks) :
    hasFedKeyB (addFedKey t o sv ks) o K sv = true := by
  have hl2 : lookupA (addFedKey t o sv ks) o =
      some (.object { ob with fields := ob.fields.map (addFedKeyField ks sv) }) := by
    rw [lookupA_addFedKey, hlook]
    simp [addFedKeyNamed_object]
  rw [hasFedKeyB_object _ _ _ _ _ hl2]
  rw [lookupA_map_addFedKeyField]
  cases hf : lookupA ob.fields K with
  | none => rw [hf] at hfield; simp at hfield
  | some fld =>
    simp only [Option.map_some']
    rw [if_pos hks]
    simp only [decide_eq_true_eq]
    exact mem_insertNew_self _ _

theorem shapeLe_refl (t : TypeTable) : shapeLe t t :=
  ⟨fun _ => rfl, fun _ => rfl, fun _ => rfl, fun _ _ _ h => h⟩

theorem shapeLe_trans {a b c : TypeTable} (h1 : shapeLe a b) (h2 : shapeLe b c) : shapeLe a c := by
  obtain ⟨f1, g1, i1, m1⟩ := h1
  obtain ⟨f2, g2, i2, m2⟩ := h2
  exact ⟨fun n => (f2 n).trans (f1 n), fun n => (g2 n).trans (g1 n),
    fun n => (i2 n).trans (i1 n), fun n K s h => m2 n K s (m1 n K s h)⟩

theorem shapeLe_addFedKey (t : TypeTable) (o s : String) (ks : List String) :
    shapeLe t (addFedKey t o s ks) :=
  ⟨objFieldNames_addFedKey t o s ks, objGName_addFedKey t o s ks,
    ioFields_addFedKey t o s ks, hasFedKeyB_addFedKey_mono t o s ks⟩

/-! ## Field-info monotonicity -/

theorem lookupA_append_some {κ α : Type} [DecidableEq κ] :
    ∀ (l tail : List (κ × α)) (n : κ) (v : α),
      lookupA l n = some v → lookupA (l ++ tail) n = some v := by
  intro l tail n v h
  induction l with
  | nil => simp [lookupA] at h
  | cons p rest ih =>
    obtain ⟨k, w⟩ := p
    simp only [lookupA, List.cons_append] at h ⊢
    by_cases hk : n = k
    · simpa [hk] using h
    · simp only [if_neg hk] at h ⊢
      exact ih h

theorem lookupA_append_none {κ α : Type} [DecidableEq κ] :
    ∀ (l tail : List (κ × α)) (n : κ),
      lookupA l n = none → lookupA (l ++ tail) n = lookupA tail n := by
  intro l tail n h
  induction l with
  | nil => rfl
  | cons p rest ih =>
    obtain ⟨k, w⟩ := p
    simp only [lookupA, List.cons_append] at h ⊢
    by_cases hk : n = k
    · simp [hk] at h
    · simp only [if_neg hk] at h ⊢
      exact ih h

theorem hasServiceB_addServiceInfo_mono (i : FieldInfos) (k : FieldKey) (sv : String)
    (k' : FieldKey) (s : String) (h : hasServiceB i k' s = true) :
    hasServiceB (addServiceInfo i k sv) k' s = true := by
  unfold hasServiceB at h ⊢
  unfold addServiceInfo
  cases hl : lookupA i k with
  | none =>
    cases hl' : lookupA i k' with
    | none => rw [hl'] at h; simp at h
    | some info =>
      rw [hl'] at h
      rw [lookupA_append_some _ _ _ _ hl']
      exact h
  | some info =>
    by_cases hk : k' = k
    · subst hk
      rw [lookupA_insertReplace_self]
      rw [hl] at h
      simp only [decide_eq_true_eq] at h ⊢
      exact mem_insertNew_of_mem _ _ _ h
    · rw [lookupA_insertReplace_other _ _ _ _ hk]
      exact h

theorem hasServiceB_addServiceInfo_establish (i : FieldInfos) (k : FieldKey) (sv : String) :
    hasServiceB (addServiceInfo i k sv) k sv = true := by
  unfold hasServiceB addServiceInfo
  cases hl : lookupA i k with
  | none =>
    rw [lookupA_append_none _ _ _ hl]
    simp [lookupA]
  | some info =>
    rw [lookupA_insertReplace_self]
    simp only [decide_eq_true_eq]
    exact mem_insertNew_self _ _

theorem infosLe_refl (i : FieldInfos) : infosLe i i := fun _ _ h => h

theorem infosLe_trans {a b c : FieldInfos} (h1 : infosLe a b) (h2 : infosLe b c) : infosLe a c :=
  fun k s h => h2 k s (h1 k s h)

theorem infosLe_addServiceInfo (i : FieldInfos) (k : FieldKey) (sv : String) :
    infosLe i (addServiceInfo i k sv) :=
  fun k' s h => hasServiceB_addServiceInfo_mono i k sv k' s h

/-! ## View helpers -/

theorem lookupA_isSome_iff_mem_keys {κ α : Type} [DecidableEq κ] :
    ∀ (l : List (κ × α)) (k : κ), (lookupA l k).isSome = true ↔ k ∈ l.map Prod.fst := by
  intro l k
  induction l with
  | nil => simp [lookupA]
  | cons p rest ih =>
    obtain ⟨k', v⟩ := p
    simp only [lookupA, List.map_cons, List.mem_cons]
    by_cases hk : k = k'
    · simp [hk]
    · simp [hk, ih]

theorem ioFields_of_lookup {t : TypeTable} {n : String} {io : GInputObject}
    (h : lookupA t n = some (.inputObject io)) : ioFields t n = some io.inputFields := by
  unfold ioFields
  rw [h]
  rfl

theorem objGName_of_lookup {t : TypeTable} {n : String} {o : GObject}
    (h : lookupA t n = some (.object o)) : objGName t n = some o.name := by
  unfold objGName
  rw [h]
  rfl

theorem objFieldNames_of_lookup {t : TypeTable} {n : String} {o : GObject}
    (h : lookupA t n = some (.object o)) :
    objFieldNames t n = some (o.fields.map Prod.fst) := by
  unfold objFieldNames
  rw [h]
  rfl

theorem objFieldNames_inv {t : TypeTable} {n : String} {fns : List String}
    (h : objFieldNames t n = some fns) :
    ∃ o : GObject, lookupA t n = some (.object o) ∧ o.fields.map Prod.fst = fns := by
  unfold objFieldNames at h
  cases hl : lookupA t n with
  | none => rw [hl] at h; simp at h
  | some nt =>
    rw [hl] at h
    cases nt with
    | object o =>
      refine ⟨o, rfl, ?_⟩
      simpa [fieldNamesOf] using h
    | inputObject io => simp [fieldNamesOf] at h
    | scalar nn => simp [fieldNamesOf] at h
    | union u => simp [fieldNamesOf] at h
    | enum e => simp [fieldNamesOf] at h

/-! ## Soundness of the entry-argument loop -/

theorem processArg_ok {byName : List (String × IntrospectionQueryResult)}
    {service objName fieldName : String} {obj : GObject} {types : TypeTable}
    {arg : IntrospectionInputField} {t2 : TypeTable}
    (h : processArg byName service objName fieldName obj types arg = .ok t2) :
    ∃ aref, arg.type = some aref ∧
      ∃ inObj : GInputObject,
        lookupA types (getRootType aref).name = some (.inputObject inObj) ∧
        isOkE (checkArgKeys byName obj (getRootType aref).name
          (inObj.inputFields.map Prod.fst)) = true ∧
        t2 = addFedKey types objName service (inObj.inputFields.map Prod.fst) := by
  unfold processArg at h
  cases harg : arg.type with
  | none => rw [harg] at h; simp at h
  | some aref =>
    rw [harg] at h
    simp only at h
    refine ⟨aref, rfl, ?_⟩
    cases hlook : lookupA types (getRootType aref).name with
    | none => rw [hlook] at h; simp at h
    | some nt =>
      rw [hlook] at h
      cases nt with
      | inputObject inObj =>
        refine ⟨inObj, rfl, ?_⟩
        replace h : (match checkArgKeys byName obj (getRootType aref).name
            (inObj.inputFields.map Prod.fst) with
          | .error e => .error e
          | .ok () => .ok (addFedKey types objName service
              (inObj.inputFields.map Prod.fst))) = Except.ok t2 := h
        cases hchk : checkArgKeys byName obj (getRootType aref).name
            (inObj.inputFields.map Prod.fst) with
        | error e => rw [hchk] at h; simp at h
        | ok u =>
          cases u
          rw [hchk] at h
          simp only [Except.ok.injEq] at h
          exact ⟨rfl, h.symm⟩
      | object o => simp at h
      | scalar nn => simp at h
      | union u => simp at h
      | enum e => simp at h

theorem argCheckOK_congr (t t' : TypeTable) (hio : ∀ n, ioFields t' n = ioFields t n) :
    ∀ (byName : List (String × IntrospectionQueryResult)) (oname : String) (fns : List String)
      (arg : IntrospectionInputField),
      argCheckOK byName oname fns t' arg ↔ argCheckOK byName oname fns t arg := by
  intro byName oname fns arg
  unfold argCheckOK
  simp only [hio]

theorem processArgs_ok {byName : List (String × IntrospectionQueryResult)}
    {service objName fieldName : String} {obj : GObject} :
    ∀ (args : List IntrospectionInputField) (types t' : TypeTable),
      processArgs byName service objName fieldName obj types args = .ok t' →
      objFieldNames types objName = some (obj.fields.map Prod.fst) →
      shapeLe types t' ∧
      (∀ arg ∈ args, argCheckOK byName obj.name (obj.fields.map Prod.fst) types arg) ∧
      (∀ arg ∈ args, ∀ aref, arg.type = some aref →
        ∀ ifls, ioFields types (getRootType aref).name = some ifls →
          ∀ K ∈ ifls.map Prod.fst, K ∈ obj.fields.map Prod.fst →
            hasFedKeyB t' objName K service = true) := by
  intro args
  induction args with
  | nil =>
    intro types t' h hobj
    unfold processArgs at h
    simp only [Except.ok.injEq] at h
    subst h
    exact ⟨shapeLe_refl _, by simp, by simp⟩
  | cons arg rest ih =>
    intro types t' h hobj
    unfold processArgs at h
    cases hpa : processArg byName service objName fieldName obj types arg with
    | error e => rw [hpa] at h; simp at h
    | ok t1 =>
      rw [hpa] at h
      obtain ⟨aref, harg, inObj, hlook, hchk, ht1⟩ := processArg_ok hpa
      have hsh1 : shapeLe types t1 := ht1 ▸ shapeLe_addFedKey types objName service _
      have hobj1 : objFieldNames t1 objName = some (obj.fields.map Prod.fst) := by
        rw [hsh1.1]
        exact hobj
      obtain ⟨hsh2, hchecks, hest⟩ := ih t1 t' h hobj1
      have hsh : shapeLe types t' := shapeLe_trans hsh1 hsh2
      refine ⟨hsh, ?_, ?_⟩
      · intro a ha
        rcases List.mem_cons.mp ha with rfl | ha'
        · -- the head argument's own checks
          refine ⟨aref, harg, inObj.inputFields, ioFields_of_lookup hlook, ?_⟩
          intro K hK
          rw [isOkE_checkArgKeys] at hchk
          rw [List.all_eq_true] at hchk
          have := hchk K hK
          simp only [Bool.and_eq_true] at this
          exact ⟨this.1, (lookupA_isSome_iff_mem_keys _ _).mp this.2⟩
        · exact (argCheckOK_congr types t1 hsh1.2.2.1 _ _ _ _).mp (hchecks a ha')
      · intro a ha aref' harg' ifls hifls K hK hKobj
        rcases List.mem_cons.mp ha with rfl | ha'
        · -- the head argument deposits its keys
          rw [harg] at harg'
          injection harg' with he
          subst he
          rw [ioFields_of_lookup hlook] at hifls
          injection hifls with he2
          subst he2
          obtain ⟨ob', hlobj, hfns⟩ := objFieldNames_inv hobj
          have hKsome : (lookupA ob'.fields K).isSome = true := by
            rw [lookupA_isSome_iff_mem_keys, hfns]
            exact hKobj
          have hest1 : hasFedKeyB t1 objName K service = true := by
            rw [ht1]
            exact hasFedKeyB_addFedKey_establish types objName service K _ ob' hlobj hKsome hK
          exact hsh2.2.2.2 _ _ _ hest1
        · refine hest a ha' aref' harg' ifls ?_ K hK hKobj
          rw [hsh1.2.2.1]
          exact hifls

theorem processEntryField_ok {byName : List (String × IntrospectionQueryResult)}
    {service : String} {types t' : TypeTable} {field : IntrospectionField}
    (h : processEntryField byName service types field = .ok t') :
    shapeLe types t' ∧ entryOK byName types field ∧ entryEstablish service types t' field := by
  unfold processEntryField at h
  cases hsplit : splitN2Underscore field.name with
  | nil => rw [hsplit] at h; simp at h
  | cons a l1 =>
    cases l1 with
    | nil => rw [hsplit] at h; simp at h
    | cons objName l2 =>
      cases l2 with
      | nil =>
        rw [hsplit] at h
        replace h : (match lookupA types objName with
          | some (.object obj) => processArgs byName service objName field.name obj types field.args
          | _ => .error (.err ("Expected objectName " ++ objName ++ " on merged schema")))
            = Except.ok t' := h
        cases hlook : lookupA types objName with
        | none => rw [hlook] at h; simp at h
        | some nt =>
          rw [hlook] at h
          cases nt with
          | object obj =>
            replace h : processArgs byName service objName field.name obj types field.args
              = Except.ok t' := h
            have hobj : objFieldNames types objName = some (obj.fields.map Prod.fst) :=
              objFieldNames_of_lookup hlook
            obtain ⟨hsh, hchecks, hest⟩ := processArgs_ok field.args types t' h hobj
            refine ⟨hsh, ?_, ?_⟩
            · exact ⟨a, objName, hsplit, obj.name, obj.fields.map Prod.fst,
                objGName_of_lookup hlook, hobj, hchecks⟩
            · intro sp objName' hsplit' arg ha aref harg ifls hifls K hK fns hfns hKf
              rw [hsplit] at hsplit'
              injection hsplit' with h1 h2
              injection h2 with h2 _
              subst h2
              rw [hobj] at hfns
              injection hfns with he
              subst he
              exact hest arg ha aref harg ifls hifls K hK hKf
          | inputObject io => simp at h
          | scalar nn => simp at h
          | union u => simp at h
          | enum e => simp at h
      | cons c l3 => rw [hsplit] at h; simp at h

theorem entryOK_congr {t t' : TypeTable} (hsh : shapeLe t t') :
    ∀ (byName : List (String × IntrospectionQueryResult)) (field : IntrospectionField),
      entryOK byName t' field ↔ entryOK byName t field := by
  intro byName field
  unfold entryOK
  simp only [hsh.1, hsh.2.1, argCheckOK_congr t t' hsh.2.2.1]

theorem entryEstablish_congr {t t'' tF : TypeTable} (hsh : shapeLe t t'')
    {sv : String} {field : IntrospectionField}
    (h : entryEstablish sv t'' tF field) : entryEstablish sv t tF field := by
  intro sp objName hsplit arg ha aref harg ifls hifls K hK fns hfns hKf
  refine h sp objName hsplit arg ha aref harg ifls ?_ K hK fns ?_ hKf
  · rw [hsh.2.2.1]
    exact hifls
  · rw [hsh.1]
    exact hfns

theorem entryEstablish_mono {t tF tF' : TypeTable} (hsh : shapeLe tF tF')
    {sv : String} {field : IntrospectionField}
    (h : entryEstablish sv t tF field) : entryEstablish sv t tF' field := by
  intro sp objName hsplit arg ha aref harg ifls hifls K hK fns hfns hKf
  exact hsh.2.2.2 _ _ _ (h sp objName hsplit arg ha aref harg ifls hifls K hK fns hfns hKf)

theorem processEntryFields_ok {byName : List (String × IntrospectionQueryResult)}
    {service : String} :
    ∀ (fields : List IntrospectionField) (types t' : TypeTable),
      processEntryFields byName service types fields = .ok t' →
      shapeLe types t' ∧
      ∀ field ∈ fields, entryOK byName types field ∧ entryEstablish service types t' field := by
  intro fields
  induction fields with
  | nil =>
    intro types t' h
    unfold processEntryFields at h
    simp only [Except.ok.injEq] at h
    subst h
    exact ⟨shapeLe_refl _, by simp⟩
  | cons field rest ih =>
    intro types t' h
    unfold processEntryFields at h
    cases hpe : processEntryField byName service types field with
    | error e => rw [hpe] at h; simp at h
    | ok t1 =>
      rw [hpe] at h
      obtain ⟨hsh1, hok1, hest1⟩ := processEntryField_ok hpe
      obtain ⟨hsh2, hrest⟩ := ih t1 t' h
      refine ⟨shapeLe_trans hsh1 hsh2, ?_⟩
      intro f hf
      rcases List.mem_cons.mp hf with rfl | hf'
      · exact ⟨hok1, entryEstablish_mono hsh2 hest1⟩
      · obtain ⟨hok, hest⟩ := hrest f hf'
        exact ⟨(entryOK_congr hsh1 _ _).mp hok, entryEstablish_congr hsh1 hest⟩

/-! ## Soundness of the service-annotation loop -/

theorem annotateFields_infosLe (service typName : String) (objFields : List (String × GField)) :
    ∀ (fl : List IntrospectionField) (infos : FieldInfos),
      infosLe infos (annotateFields service typName objFields fl infos) := by
  intro fl
  induction fl with
  | nil =>
    intro infos
    simp only [annotateFields]
    exact infosLe_refl _
  | cons f rest ih =>
    intro infos
    simp only [annotateFields]
    exact infosLe_trans (infosLe_addServiceInfo _ _ _) (ih _)

theorem annotateFields_establish (service typName : String) (objFields : List (String × GField)) :
    ∀ (fl : List IntrospectionField) (infos : FieldInfos) (f : IntrospectionField), f ∈ fl →
      (lookupA objFields f.name).isSome = true →
      hasServiceB (annotateFields service typName objFields fl infos)
        (some (typName, f.name)) service = true := by
  intro fl
  induction fl with
  | nil =>
    intro infos f hf
    simp at hf
  | cons f0 rest ih =>
    intro infos f hf hsome
    rcases List.mem_cons.mp hf with rfl | hf'
    · cases hl : lookupA objFields f.name with
      | none => rw [hl] at hsome; simp at hsome
      | some fld =>
        have heq : annotateFields service typName objFields (f :: rest) infos =
            annotateFields service typName objFields rest
              (addServiceInfo infos (some (typName, f.name)) service) := by
          simp [annotateFields, hl]
        rw [heq]
        exact annotateFields_infosLe service typName objFields rest _ _ _
          (hasServiceB_addServiceInfo_establish infos (some (typName, f.name)) service)
    · simp only [annotateFields]
      exact ih _ f hf' hsome

theorem annotateObject_ok {service : String} {typ : IntrospectionType} {types : TypeTable}
    {infos i2 : FieldInfos} (h : annotateObject service typ types infos = .ok i2) :
    ∃ obj : GObject, lookupA types typ.name = some (.object obj) ∧
      i2 = annotateFields service typ.name obj.fields typ.fields infos := by
  unfold annotateObject at h
  cases hl : lookupA types typ.name with
  | none => rw [hl] at h; simp at h
  | some nt =>
    rw [hl] at h
    cases nt with
    | object obj =>
      replace h : Except.ok (α := FieldInfos) (ε := GoErr)
          (annotateFields service typ.name obj.fields typ.fields infos) = Except.ok i2 := h
      simp only [Except.ok.injEq] at h
      exact ⟨obj, rfl, h.symm⟩
    | inputObject io => simp at h
    | scalar nn => simp at h
    | union u => simp at h
    | enum e => simp at h

theorem processTyp_ok {byName : List (String × IntrospectionQueryResult)} {service : String}
    {t : TypeTable} {i : FieldInfos} {typ : IntrospectionType} {t2 : TypeTable} {i2 : FieldInfos}
    (h : processTyp byName service (t, i) typ = .ok (t2, i2)) :
    shapeLe t t2 ∧ infosLe i i2 ∧
      (typ.name = "Federation" →
        ∀ field ∈ typ.fields, entryOK byName t field ∧ entryEstablish service t t2 field) ∧
      (typ.kind = "OBJECT" →
        ∀ f ∈ typ.fields, ∀ fns, objFieldNames t typ.name = some fns → f.name ∈ fns →
          hasServiceB i2 (some (typ.name, f.name)) service = true) := by
  unfold processTyp at h
  replace h : (match (if typ.name == "Federation"
        then processEntryFields byName service t typ.fields else Except.ok t) with
    | .error e => .error e
    | .ok tm =>
      if typ.kind == "OBJECT" then
        match annotateObject service typ tm i with
        | .error e => .error e
        | .ok im => .ok (tm, im)
      else
        .ok (tm, i)) = Except.ok (t2, i2) := h
  cases hstep : (if typ.name == "Federation"
      then processEntryFields byName service t typ.fields else Except.ok t) with
  | error e => rw [hstep] at h; simp at h
  | ok tm =>
    rw [hstep] at h
    have hfedstep : shapeLe t tm ∧ (typ.name = "Federation" →
        ∀ field ∈ typ.fields, entryOK byName t field ∧ entryEstablish service t tm field) := by
      by_cases hfed : typ.name = "Federation"
      · have hb : (typ.name == "Federation") = true := by simp [hfed]
        rw [hb] at hstep
        simp only [if_true] at hstep
        obtain ⟨hsh, hrest⟩ := processEntryFields_ok typ.fields t tm hstep
        exact ⟨hsh, fun _ => hrest⟩
      · have hb : (typ.name == "Federation") = false := by simp [hfed]
        rw [hb] at hstep
        simp only [Bool.false_eq_true, if_false, Except.ok.injEq] at hstep
        subst hstep
        exact ⟨shapeLe_refl _, fun hcon => absurd hcon hfed⟩
    obtain ⟨hsh1, hfede⟩ := hfedstep
    replace h : (if typ.kind == "OBJECT" then
        match annotateObject service typ tm i with
        | .error e => .error e
        | .ok im => .ok (tm, im)
      else Except.ok (tm, i)) = Except.ok (t2, i2) := h
    by_cases hobj : typ.kind = "OBJECT"
    · have hb : (typ.kind == "OBJECT") = true := by simp [hobj]
      rw [hb] at h
      simp only [if_true] at h
      cases hann : annotateObject service typ tm i with
      | error e => rw [hann] at h; simp at h
      | ok im =>
        rw [hann] at h
        simp only [Except.ok.injEq, Prod.mk.injEq] at h
        obtain ⟨h1, h2⟩ := h
        subst h1
        subst h2
        obtain ⟨obj, hlook, him⟩ := annotateObject_ok hann
        subst him
        refine ⟨hsh1, annotateFields_infosLe _ _ _ _ _, hfede, ?_⟩
        intro _ f hf fns hfns hmem
        have hfns2 : objFieldNames tm typ.name = some fns := by
          rw [hsh1.1]
          exact hfns
        rw [objFieldNames_of_lookup hlook] at hfns2
        injection hfns2 with he
        subst he
        have hsome : (lookupA obj.fields f.name).isSome = true := by
          rw [lookupA_isSome_iff_mem_keys]
          exact hmem
        exact annotateFields_establish service typ.name obj.fields typ.fields i f hf hsome
    · have hb : (typ.kind == "OBJECT") = false := by simp [hobj]
      rw [hb] at h
      simp only [Bool.false_eq_true, if_false, Except.ok.injEq, Prod.mk.injEq] at h
      obtain ⟨h1, h2⟩ := h
      subst h1
      subst h2
      exact ⟨hsh1, infosLe_refl _, hfede, fun hcon => absurd hcon hobj⟩

theorem processTyps_ok {byName : List (String × IntrospectionQueryResult)} {service : String} :
    ∀ (typs : List IntrospectionType) (t : TypeTable) (i : FieldInfos) (t' : TypeTable)
      (i' : FieldInfos),
      processTyps byName service typs t i = .ok (t', i') →
      shapeLe t t' ∧ infosLe i i' ∧
      ∀ typ ∈ typs,
        (typ.name = "Federation" →
          ∀ field ∈ typ.fields, entryOK byName t field ∧ entryEstablish service t t' field) ∧
        (typ.kind = "OBJECT" →
          ∀ f ∈ typ.fields, ∀ fns, objFieldNames t typ.name = some fns → f.name ∈ fns →
            hasServiceB i' (some (typ.name, f.name)) service = true) := by
  intro typs
  induction typs with
  | nil =>
    intro t i t' i' h
    unfold processTyps at h
    simp only [Except.ok.injEq, Prod.mk.injEq] at h
    obtain ⟨h1, h2⟩ := h
    subst h1
    subst h2
    exact ⟨shapeLe_refl _, infosLe_refl _, by simp⟩
  | cons typ rest ih =>
    intro t i t' i' h
    unfold processTyps at h
    cases hpt : processTyp byName service (t, i) typ with
    | error e => rw [hpt] at h; simp at h
    | ok p =>
      obtain ⟨tm, im⟩ := p
      rw [hpt] at h
      obtain ⟨hsh1, hil1, hfed1, hobj1⟩ := processTyp_ok hpt
      obtain ⟨hsh2, hil2, hrest⟩ := ih tm im t' i' h
      refine ⟨shapeLe_trans hsh1 hsh2, infosLe_trans hil1 hil2, ?_⟩
      intro ty hty
      rcases List.mem_cons.mp hty with rfl | hty'
      · refine ⟨?_, ?_⟩
        · intro hfed field hfield
          obtain ⟨hok, hest⟩ := hfed1 hfed field hfield
          exact ⟨hok, entryEstablish_mono hsh2 hest⟩
        · intro hkind f hf fns hfns hmem
          exact hil2 _ _ (hobj1 hkind f hf fns hfns hmem)
      · obtain ⟨hfedr, hobjr⟩ := hrest ty hty'
        refine ⟨?_, ?_⟩
        · intro hfed field hfield
          obtain ⟨hok, hest⟩ := hfedr hfed field hfield
          exact ⟨(entryOK_congr hsh1 _ _).mp hok, entryEstablish_congr hsh1 hest⟩
        · intro hkind f hf fns hfns hmem
          refine hobjr hkind f hf fns ?_ hmem
          rw [hsh1.1]
          exact hfns

theorem processServices_ok {byName : List (String × IntrospectionQueryResult)} :
    ∀ (l : List (String × IntrospectionQueryResult)) (t : TypeTable) (i : FieldInfos)
      (t' : TypeTable) (i' : FieldInfos),
      processServices byName l t i = .ok (t', i') →
      shapeLe t t' ∧ infosLe i i' ∧
      ∀ p ∈ l, ∀ typ ∈ p.2.schema.types,
        (typ.name = "Federation" →
          ∀ field ∈ typ.fields, entryOK byName t field ∧ entryEstablish p.1 t t' field) ∧
        (typ.kind = "OBJECT" →
          ∀ f ∈ typ.fields, ∀ fns, objFieldNames t typ.name = some fns → f.name ∈ fns →
            hasServiceB i' (some (typ.name, f.name)) p.1 = true) := by
  intro l
  induction l with
  | nil =>
    intro t i t' i' h
    unfold processServices at h
    simp only [Except.ok.injEq, Prod.mk.injEq] at h
    obtain ⟨h1, h2⟩ := h
    subst h1
    subst h2
    exact ⟨shapeLe_refl _, infosLe_refl _, by simp⟩
  | cons p rest ih =>
    intro t i t' i' h
    obtain ⟨service, iqr⟩ := p
    unfold processServices at h
    cases hpt : processTyps byName service iqr.schema.types t i with
    | error e => rw [hpt] at h; simp at h
    | ok q =>
      obtain ⟨tm, im⟩ := q
      rw [hpt] at h
      obtain ⟨hsh1, hil1, hthis⟩ := processTyps_ok iqr.schema.types t i tm im hpt
      obtain ⟨hsh2, hil2, hrest⟩ := ih tm im t' i' h
      refine ⟨shapeLe_trans hsh1 hsh2, infosLe_trans hil1 hil2, ?_⟩
      intro q hq typ htyp
      rcases List.mem_cons.mp hq with rfl | hq'
      · obtain ⟨hfed, hobj⟩ := hthis typ htyp
        refine ⟨?_, ?_⟩
        · intro hname field hfield
          obtain ⟨hok, hest⟩ := hfed hname field hfield
          exact ⟨hok, entryEstablish_mono hsh2 hest⟩
        · intro hkind f hf fns hfns hmem
          exact hil2 _ _ (hobj hkind f hf fns hfns hmem)
      · obtain ⟨hfedr, hobjr⟩ := hrest q hq' typ htyp
        refine ⟨?_, ?_⟩
        · intro hname field hfield
          obtain ⟨hok, hest⟩ := hfedr hname field hfield
          exact ⟨(entryOK_congr hsh1 _ _).mp hok, entryEstablish_congr hsh1 hest⟩
        · intro hkind f hf fns hfns hmem
          refine hobjr hkind f hf fns ?_ hmem
          rw [hsh1.1]
          exact hfns

/-! ## Union-merge preservation lemmas -/

theorem mergeFieldLists_union_ok {a b fs : List IntrospectionField}
    (h : mergeFieldLists .Union a b = .ok fs) :
    fs = a ++ b.filter (fun fb => !(a.any (fun fa => fa.name == fb.name))) := by
  replace h : (match checkCommonFields a b with
    | Except.error e => Except.error e
    | Except.ok () => Except.ok (a ++ b.filter (fun fb => !(a.any (fun fa => fa.name == fb.name)))))
      = Except.ok fs := h
  cases hc : checkCommonFields a b with
  | error e => rw [hc] at h; simp at h
  | ok u =>
    cases u
    rw [hc] at h
    simp only [Except.ok.injEq] at h
    exact h.symm

theorem mergeTypes_union_ok {ta tb t : IntrospectionType}
    (h : mergeTypes .Union ta tb = .ok t) :
    t.name = ta.name ∧ t.kind = ta.kind ∧ ta.kind = tb.kind ∧
    (∀ f ∈ ta.fields, ∃ fm ∈ t.fields, fm.name = f.name) ∧
    (∀ f ∈ tb.fields, ∃ fm ∈ t.fields, fm.name = f.name) := by
  unfold mergeTypes at h
  cases hk : (ta.kind != tb.kind) with
  | true => rw [hk] at h; simp at h
  | false =>
    rw [hk] at h
    simp only [Bool.false_eq_true, if_false] at h
    have hkind : ta.kind = tb.kind := by
      simpa using hk
    cases hmf : mergeFieldLists .Union ta.fields tb.fields with
    | error e => rw [hmf] at h; simp at h
    | ok fs =>
      rw [hmf] at h
      replace h : (match mergeInputLists .Union ta.inputFields tb.inputFields with
        | Except.error e => Except.error (wrapGo ("merging type " ++ ta.name ++ ": ") e)
        | Except.ok ifs => Except.ok (⟨ta.name, ta.kind, fs, ifs,
            mergePossibleTypes .Union ta.possibleTypes tb.possibleTypes,
            mergeEnumValues .Union ta.enumValues tb.enumValues⟩ : IntrospectionType))
          = Except.ok t := h
      cases hmi : mergeInputLists .Union ta.inputFields tb.inputFields with
      | error e => rw [hmi] at h; simp at h
      | ok ifs =>
        rw [hmi] at h
        simp only [Except.ok.injEq] at h
        have hfs := mergeFieldLists_union_ok hmf
        subst h
        refine ⟨rfl, rfl, hkind, ?_, ?_⟩
        · intro f hf
          refine ⟨f, ?_, rfl⟩
          simp only [hfs]
          exact List.mem_append_left _ hf
        · intro f hf
          by_cases hany : (ta.fields.any (fun fa => fa.name == f.name)) = true
          · obtain ⟨fa, hfa, hname⟩ := List.any_eq_true.mp hany
            refine ⟨fa, ?_, eq_of_beq hname⟩
            simp only [hfs]
            exact List.mem_append_left _ hfa
          · refine ⟨f, ?_, rfl⟩
            simp only [hfs]
            refine List.mem_append_right _ ?_
            rw [List.mem_filter]
            simp only [Bool.not_eq_true] at hany
            simp [hf, hany]

theorem dupName_none_unique :
    ∀ l : List IntrospectionType, dupName l = none →
      ∀ t1 ∈ l, ∀ t2 ∈ l, t1.name = t2.name → t1 = t2 := by
  intro l
  induction l with
  | nil => intro _ t1 h1; simp at h1
  | cons t rest ih =>
    intro hd t1 h1 t2 h2 hname
    unfold dupName at hd
    by_cases hany : (rest.any fun u => u.name == t.name) = true
    · rw [if_pos hany] at hd
      simp at hd
    · rw [if_neg hany] at hd
      simp only [Bool.not_eq_true] at hany
      rw [List.any_eq_false] at hany
      rcases List.mem_cons.mp h1 with rfl | h1' <;> rcases List.mem_cons.mp h2 with rfl | h2'
      · rfl
      · exact absurd (by simp [← hname] : (t2.name == t1.name) = true) (by simpa using hany t2 h2')
      · exact absurd (by simp [hname] : (t1.name == t2.name) = true) (by simpa using hany t1 h1')
      · exact ih hd t1 h1' t2 h2' hname

theorem mergeMatched_union_ok :
    ∀ (as b l : List IntrospectionType), dupName b = none →
      mergeMatched .Union as b = .ok l →
      (∀ ta ∈ as, ∃ tm ∈ l, tm.name = ta.name ∧ tm.kind = ta.kind ∧
        (∀ f ∈ ta.fields, ∃ fm ∈ tm.fields, fm.name = f.name)) ∧
      (∀ tb ∈ b, ∀ ta ∈ as, ta.name = tb.name →
        ∃ tm ∈ l, tm.name = tb.name ∧ tm.kind = tb.kind ∧
        (∀ f ∈ tb.fields, ∃ fm ∈ tm.fields, fm.name = f.name)) := by
  intro as
  induction as with
  | nil =>
    intro b l _ h
    replace h : (Except.ok [] : Except GoErr (List IntrospectionType)) = Except.ok l := h
    simp only [Except.ok.injEq] at h
    subst h
    constructor
    · intro ta hta; simp at hta
    · intro tb _ ta hta; simp at hta
  | cons ta0 rest ih =>
    intro b l hdb h
    replace h : (match b.find? (fun tb => tb.name == ta0.name) with
      | none => (match mergeMatched .Union rest b with
          | Except.error e => Except.error e
          | Except.ok l0 => Except.ok (if MergeMode.Union = .Union then ta0 :: l0 else l0))
      | some tb0 => (match mergeTypes .Union ta0 tb0 with
          | Except.error e => Except.error e
          | Except.ok t0 => (match mergeMatched .Union rest b with
              | Except.error e => Except.error e
              | Except.ok l0 => Except.ok (t0 :: l0)))) = Except.ok l := h
    cases hfind : b.find? (fun tb => tb.name == ta0.name) with
    | none =>
      rw [hfind] at h
      replace h : (match mergeMatched .Union rest b with
        | Except.error e => Except.error e
        | Except.ok l0 => Except.ok (if MergeMode.Union = .Union then ta0 :: l0 else l0))
          = Except.ok l := h
      cases hmm : mergeMatched .Union rest b with
      | error e => rw [hmm] at h; simp at h
      | ok l0 =>
        rw [hmm] at h
        simp only [reduceIte, Except.ok.injEq] at h
        subst h
        obtain ⟨ha, hb⟩ := ih b l0 hdb hmm
        constructor
        · intro ta hta
          rcases List.mem_cons.mp hta with rfl | hta'
          · exact ⟨ta, List.mem_cons_self _ _, rfl, rfl, fun f hf => ⟨f, hf, rfl⟩⟩
          · obtain ⟨tm, htm, hp⟩ := ha ta hta'
            exact ⟨tm, List.mem_cons_of_mem _ htm, hp⟩
        · intro tb htb ta hta hname
          rcases List.mem_cons.mp hta with rfl | hta'
          · exfalso
            have := List.find?_eq_none.mp hfind tb htb
            simp [hname] at this
          · obtain ⟨tm, htm, hp⟩ := hb tb htb ta hta' hname
            exact ⟨tm, List.mem_cons_of_mem _ htm, hp⟩
    | some tb0 =>
      rw [hfind] at h
      replace h : (match mergeTypes .Union ta0 tb0 with
        | Except.error e => Except.error e
        | Except.ok t0 => (match mergeMatched .Union rest b with
            | Except.error e => Except.error e
            | Except.ok l0 => Except.ok (t0 :: l0))) = Except.ok l := h
      cases hmt : mergeTypes .Union ta0 tb0 with
      | error e => rw [hmt] at h; simp at h
      | ok t0 =>
        rw [hmt] at h
        replace h : (match mergeMatched .Union rest b with
          | Except.error e => Except.error e
          | Except.ok l0 => Except.ok (t0 :: l0)) = Except.ok l := h
        cases hmm : mergeMatched .Union rest b with
        | error e => rw [hmm] at h; simp at h
        | ok l0 =>
          rw [hmm] at h
          simp only [Except.ok.injEq] at h
          subst h
          obtain ⟨hname0, hkind0, hkind01, hfa, hfb⟩ := mergeTypes_union_ok hmt
          obtain ⟨ha, hb⟩ := ih b l0 hdb hmm
          have htb0mem : tb0 ∈ b := List.mem_of_find?_eq_some hfind
          have htb0name : tb0.name = ta0.name := by
            have hp := List.find?_some hfind
            exact eq_of_beq hp
          constructor
          · intro ta hta
            rcases List.mem_cons.mp hta with rfl | hta'
            · exact ⟨t0, List.mem_cons_self _ _, hname0, hkind0, hfa⟩
            · obtain ⟨tm, htm, hp⟩ := ha ta hta'
              exact ⟨tm, List.mem_cons_of_mem _ htm, hp⟩
          · intro tb htb ta hta hname
            rcases List.mem_cons.mp hta with rfl | hta'
            · have huniq : tb0 = tb := dupName_none_unique b hdb tb0 htb0mem tb htb
                (htb0name.trans hname)
              subst huniq
              refine ⟨t0, List.mem_cons_self _ _, ?_, ?_, hfb⟩
              · rw [hname0, ← htb0name]
              · rw [hkind0, hkind01]
            · obtain ⟨tm, htm, hp⟩ := hb tb htb ta hta' hname
              exact ⟨tm, List.mem_cons_of_mem _ htm, hp⟩

theorem mergeSchemas_union_ok {a b m : IntrospectionQueryResult}
    (h : mergeSchemas .Union a b = .ok m) :
    typeFieldSuperset a m ∧ typeFieldSuperset b m := by
  unfold mergeSchemas at h
  cases hda : dupName a.schema.types with
  | some n => rw [hda] at h; simp at h
  | none =>
    rw [hda] at h
    replace h : (match dupName b.schema.types with
      | some n => Except.error (GoErr.err ("duplicate type " ++ n))
      | none => (match mergeMatched .Union a.schema.types b.schema.types with
          | Except.error e => Except.error e
          | Except.ok merged =>
            if MergeMode.Union = .Union then
              Except.ok ⟨⟨merged ++ b.schema.types.filter
                (fun tb => !(a.schema.types.any (fun ta => ta.name == tb.name)))⟩⟩
            else
              Except.ok ⟨⟨merged⟩⟩)) = Except.ok m := h
    cases hdb : dupName b.schema.types with
    | some n => rw [hdb] at h; simp at h
    | none =>
      rw [hdb] at h
      replace h : (match mergeMatched .Union a.schema.types b.schema.types with
        | Except.error e => Except.error e
        | Except.ok merged =>
          if MergeMode.Union = .Union then
            Except.ok ⟨⟨merged ++ b.schema.types.filter
              (fun tb => !(a.schema.types.any (fun ta => ta.name == tb.name)))⟩⟩
          else
            Except.ok ⟨⟨merged⟩⟩) = Except.ok m := h
      cases hmm : mergeMatched .Union a.schema.types b.schema.types with
      | error e => rw [hmm] at h; simp at h
      | ok merged =>
        rw [hmm] at h
        simp only [reduceIte, Except.ok.injEq] at h
        subst h
        obtain ⟨ha, hb⟩ := mergeMatched_union_ok a.schema.types b.schema.types merged hdb hmm
        constructor
        · intro t ht
          obtain ⟨tm, htm, hp⟩ := ha t ht
          exact ⟨tm, List.mem_append_left _ htm, hp⟩
        · intro tb htb
          by_cases hany : (a.schema.types.any fun ta => ta.name == tb.name) = true
          · obtain ⟨ta, hta, hname⟩ := List.any_eq_true.mp hany
            obtain ⟨tm, htm, hp⟩ := hb tb htb ta hta (eq_of_beq hname)
            exact ⟨tm, List.mem_append_left _ htm, hp⟩
          · refine ⟨tb, ?_, rfl, rfl, fun f hf => ⟨f, hf, rfl⟩⟩
            refine List.mem_append_right _ ?_
            rw [List.mem_filter]
            simp only [Bool.not_eq_true] at hany
            simp [htb, hany]

theorem typeFieldSuperset_refl (s : IntrospectionQueryResult) : typeFieldSuperset s s :=
  fun t ht => ⟨t, ht, rfl, rfl, fun f hf => ⟨f, hf, rfl⟩⟩

theorem typeFieldSuperset_trans {a b c : IntrospectionQueryResult}
    (h1 : typeFieldSuperset a b) (h2 : typeFieldSuperset b c) : typeFieldSuperset a c := by
  intro t ht
  obtain ⟨tm, htm, hn, hk, hf⟩ := h1 t ht
  obtain ⟨tc, htc, hn2, hk2, hf2⟩ := h2 tm htm
  refine ⟨tc, htc, hn2.trans hn, hk2.trans hk, ?_⟩
  intro f hfm
  obtain ⟨fm, hfm2, hfname⟩ := hf f hfm
  obtain ⟨fc, hfc, hfname2⟩ := hf2 fm hfm2
  exact ⟨fc, hfc, hfname2.trans hfname⟩

theorem mergeSchemaSliceAux_union_ok :
    ∀ (l : List IntrospectionQueryResult) (acc m : IntrospectionQueryResult),
      mergeSchemaSliceAux .Union acc l = .ok m →
      typeFieldSuperset acc m ∧ ∀ s ∈ l, typeFieldSuperset s m := by
  intro l
  induction l with
  | nil =>
    intro acc m h
    replace h : Except.ok acc = Except.ok m := h
    simp only [Except.ok.injEq] at h
    subst h
    exact ⟨typeFieldSuperset_refl _, by simp⟩
  | cons s rest ih =>
    intro acc m h
    replace h : (match mergeSchemas .Union acc s with
      | Except.error e => Except.error e
      | Except.ok m1 => mergeSchemaSliceAux .Union m1 rest) = Except.ok m := h
    cases hms : mergeSchemas .Union acc s with
    | error e => rw [hms] at h; simp at h
    | ok m1 =>
      rw [hms] at h
      replace h : mergeSchemaSliceAux .Union m1 rest = Except.ok m := h
      obtain ⟨hacc, hs⟩ := mergeSchemas_union_ok hms
      obtain ⟨hm1, hrest⟩ := ih m1 m h
      refine ⟨typeFieldSuperset_trans hacc hm1, ?_⟩
      intro s' hs'
      rcases List.mem_cons.mp hs' with rfl | hs''
      · exact typeFieldSuperset_trans hs hm1
      · exact hrest s' hs''

theorem mergeSchemaSlice_union_ok {l : List IntrospectionQueryResult}
    {m : IntrospectionQueryResult} (h : mergeSchemaSlice l .Union = .ok m) :
    ∀ s ∈ l, typeFieldSuperset s m := by
  cases l with
  | nil => exact absurd h (by simp [mergeSchemaSlice])
  | cons s0 rest =>
    replace h : mergeSchemaSliceAux .Union s0 rest = Except.ok m := h
    obtain ⟨h0, hrest⟩ := mergeSchemaSliceAux_union_ok rest s0 m h
    intro s hs
    rcases List.mem_cons.mp hs with rfl | hs'
    · exact h0
    · exact hrest s hs'

/-! ## `parseSchema` pass-one facts -/

theorem buildShells_cons_dup {t : IntrospectionType} {rest : List IntrospectionType}
    {acc : TypeTable} {v : GNamedType} (hsome : lookupA acc t.name = some v) :
    buildShells (t :: rest) acc = .error (.err ("duplicate type " ++ t.name)) := by
  have hh : buildShells (t :: rest) acc = (match lookupA acc t.name with
    | some _ => Except.error (GoErr.err ("duplicate type " ++ t.name))
    | none =>
      if t.kind == "OBJECT" then buildShells rest (acc ++ [(t.name, .object ⟨t.name, []⟩)])
      else if t.kind == "INPUT_OBJECT" then
        buildShells rest (acc ++ [(t.name, .inputObject ⟨t.name, []⟩)])
      else if t.kind == "SCALAR" then buildShells rest (acc ++ [(t.name, .scalar t.name)])
      else if t.kind == "UNION" then buildShells rest (acc ++ [(t.name, .union ⟨t.name, []⟩)])
      else if t.kind == "ENUM" then buildShells rest (acc ++ [(t.name, .enum ⟨t.name, []⟩)])
      else Except.error (GoErr.err ("unknown type kind " ++ t.kind))) := rfl
  rw [hh, hsome]

theorem buildShells_cons_fresh {t : IntrospectionType} {rest : List IntrospectionType}
    {acc : TypeTable} (hnone : lookupA acc t.name = none) :
    buildShells (t :: rest) acc =
      (if validKindB t.kind then buildShells rest (acc ++ [(t.name, shellOf t)])
       else .error (.err ("unknown type kind " ++ t.kind))) := by
  have hh : buildShells (t :: rest) acc = (match lookupA acc t.name with
    | some _ => Except.error (GoErr.err ("duplicate type " ++ t.name))
    | none =>
      if t.kind == "OBJECT" then buildShells rest (acc ++ [(t.name, .object ⟨t.name, []⟩)])
      else if t.kind == "INPUT_OBJECT" then
        buildShells rest (acc ++ [(t.name, .inputObject ⟨t.name, []⟩)])
      else if t.kind == "SCALAR" then buildShells rest (acc ++ [(t.name, .scalar t.name)])
      else if t.kind == "UNION" then buildShells rest (acc ++ [(t.name, .union ⟨t.name, []⟩)])
      else if t.kind == "ENUM" then buildShells rest (acc ++ [(t.name, .enum ⟨t.name, []⟩)])
      else Except.error (GoErr.err ("unknown type kind " ++ t.kind))) := rfl
  rw [hh, hnone]
  unfold validKindB shellOf
  by_cases h1 : (t.kind == "OBJECT") = true
  · simp [h1]
  · simp only [Bool.not_eq_true] at h1
    by_cases h2 : (t.kind == "INPUT_OBJECT") = true
    · simp [h1, h2]
    · simp only [Bool.not_eq_true] at h2
      by_cases h3 : (t.kind == "SCALAR") = true
      · simp [h1, h2, h3]
      · simp only [Bool.not_eq_true] at h3
        by_cases h4 : (t.kind == "UNION") = true
        · simp [h1, h2, h3, h4]
        · simp only [Bool.not_eq_true] at h4
          by_cases h5 : (t.kind == "ENUM") = true
          · simp [h1, h2, h3, h4, h5]
          · simp only [Bool.not_eq_true] at h5
            simp [h1, h2, h3, h4, h5]

theorem buildShells_ok :
    ∀ (l : List IntrospectionType) (acc sh : TypeTable),
      buildShells l acc = .ok sh →
      ((l.map (·.name)).Nodup ∧
       (∀ t ∈ l, lookupA acc t.name = none) ∧
       (∀ t ∈ l, validKindB t.kind = true ∧ lookupA sh t.name = some (shellOf t)) ∧
       (∀ n v, lookupA acc n = some v → lookupA sh n = some v)) := by
  intro l
  induction l with
  | nil =>
    intro acc sh h
    replace h : Except.ok acc = Except.ok sh := h
    simp only [Except.ok.injEq] at h
    subst h
    exact ⟨List.nodup_nil, by simp, by simp, fun n v hv => hv⟩
  | cons t rest ih =>
    intro acc sh h
    cases hl : lookupA acc t.name with
    | some v => rw [buildShells_cons_dup hl] at h; simp at h
    | none =>
      rw [buildShells_cons_fresh hl] at h
      by_cases hv : validKindB t.kind = true
      · rw [if_pos hv] at h
        obtain ⟨hnd, hfresh, hprops, hpres⟩ := ih (acc ++ [(t.name, shellOf t)]) sh h
        have hself : lookupA (acc ++ [(t.name, shellOf t)]) t.name = some (shellOf t) := by
          rw [lookupA_append_none _ _ _ hl]
          simp [lookupA]
        refine ⟨?_, ?_, ?_, ?_⟩
        · rw [List.map_cons, List.nodup_cons]
          refine ⟨?_, hnd⟩
          intro hmem
          obtain ⟨t', ht', hname⟩ := List.mem_map.mp hmem
          have := hfresh t' ht'
          rw [hname] at this
          rw [hself] at this
          exact absurd this (by simp)
        · intro t' ht'
          rcases List.mem_cons.mp ht' with rfl | ht''
          · exact hl
          · have h2 := hfresh t' ht''
            cases hl2 : lookupA acc t'.name with
            | none => rfl
            | some w =>
              exfalso
              have := lookupA_append_some acc [(t.name, shellOf t)] t'.name w hl2
              rw [this] at h2
              exact absurd h2 (by simp)
        · intro t' ht'
          rcases List.mem_cons.mp ht' with rfl | ht''
          · exact ⟨hv, hpres _ _ hself⟩
          · exact hprops t' ht''
        · intro n v hv2
          exact hpres n v (lookupA_append_some acc _ n v hv2)
      · simp only [Bool.not_eq_true] at hv
        rw [hv] at h
        simp only [Bool.false_eq_true, if_false] at h
        simp at h

/-! ## `parseSchema` pass-two facts -/

theorem fillType_shape2 {all : TypeTable} {typ : IntrospectionType} {all2 : TypeTable}
    (h : fillType all typ = .ok all2) :
    all2 = all ∨ ∃ old X, lookupA all typ.name = some old ∧
      all2 = insertReplace all typ.name X ∧ namedName X = namedName old := by
  unfold fillType at h
  repeat' split at h
  all_goals try (exfalso; simp at h; done)
  all_goals simp only [Except.ok.injEq] at h
  all_goals first
    | exact Or.inl h.symm
    | (rename_i heqlook
       exact Or.inr ⟨_, _, heqlook, h.symm, rfl⟩)

theorem fillType_other {all : TypeTable} {typ : IntrospectionType} {all2 : TypeTable}
    (h : fillType all typ = .ok all2) (n : String) (hne : n ≠ typ.name) :
    lookupA all2 n = lookupA all n := by
  rcases fillType_shape2 h with heq | ⟨old, X, _, heq, _⟩
  · rw [heq]
  · rw [heq]
    exact lookupA_insertReplace_other _ _ _ _ hne

theorem fillType_isSome {all : TypeTable} {typ : IntrospectionType} {all2 : TypeTable}
    (h : fillType all typ = .ok all2) (n : String) (hs : (lookupA all n).isSome = true) :
    (lookupA all2 n).isSome = true := by
  rcases fillType_shape2 h with heq | ⟨old, X, _, heq, _⟩
  · rw [heq]; exact hs
  · rw [heq]
    exact lookupA_isSome_of_mem_insertReplace _ _ _ _ hs

theorem fillType_object {all : TypeTable} {typ : IntrospectionType} {all2 : TypeTable}
    (hk : typ.kind = "OBJECT") (h : fillType all typ = .ok all2) :
    ∃ fields o, buildFields typ.name all typ.fields [] = .ok fields ∧
      lookupA all typ.name = some (.object o) ∧
      all2 = insertReplace all typ.name (.object ⟨o.name, fields⟩) := by
  have hh : fillType all typ = (match buildFields typ.name all typ.fields [] with
    | .error e => .error e
    | .ok fields =>
      match lookupA all typ.name with
      | some (.object o) => .ok (insertReplace all typ.name (.object { o with fields := fields }))
      | _ => .error (.panic "interface conversion: graphql.Type is not *graphql.Object")) := by
    unfold fillType
    rw [hk]
    rfl
  rw [hh] at h
  cases hbf : buildFields typ.name all typ.fields [] with
  | error e => rw [hbf] at h; simp at h
  | ok fields =>
    rw [hbf] at h
    replace h : (match lookupA all typ.name with
      | some (.object o) => Except.ok (insertReplace all typ.name
          (.object { o with fields := fields }))
      | _ => Except.error (GoErr.panic "interface conversion: graphql.Type is not *graphql.Object"))
        = Except.ok all2 := h
    cases hlo : lookupA all typ.name with
    | none => rw [hlo] at h; simp at h
    | some nt =>
      rw [hlo] at h
      cases nt with
      | object o =>
        replace h : Except.ok (α := TypeTable) (ε := GoErr)
            (insertReplace all typ.name (.object { o with fields := fields }))
          = Except.ok all2 := h
        simp only [Except.ok.injEq] at h
        exact ⟨fields, o, rfl, rfl, h.symm⟩
      | inputObject io => simp at h
      | scalar nn => simp at h
      | union u => simp at h
      | enum e => simp at h

theorem buildFields_mem {typName : String} {all : TypeTable} :
    ∀ (fl : List IntrospectionField) (acc : List (String × GField))
      (fields : List (String × GField)),
      buildFields typName all fl acc = .ok fields →
      (∀ f ∈ fl, (lookupA fields f.name).isSome = true) ∧
      (∀ k, (lookupA acc k).isSome = true → (lookupA fields k).isSome = true) := by
  intro fl
  induction fl with
  | nil =>
    intro acc fields h
    replace h : Except.ok acc = Except.ok fields := h
    simp only [Except.ok.injEq] at h
    subst h
    exact ⟨by simp, fun k hk => hk⟩
  | cons f rest ih =>
    intro acc fields h
    replace h : (match lookupTypeRef f.type all with
      | .error e => .error (wrapGo ("typ " ++ typName ++ " field " ++ f.name ++ " has bad typ: ") e)
      | .ok ft =>
        match parseInputFields f.args all with
        | .error e => .error (wrapGo ("field " ++ f.name ++ " input: ") e)
        | .ok parsed => buildFields typName all rest (insertReplace acc f.name ⟨parsed, ft, []⟩))
          = Except.ok fields := h
    cases hlt : lookupTypeRef f.type all with
    | error e => rw [hlt] at h; simp at h
    | ok ft =>
      rw [hlt] at h
      replace h : (match parseInputFields f.args all with
        | .error e => .error (wrapGo ("field " ++ f.name ++ " input: ") e)
        | .ok parsed => buildFields typName all rest (insertReplace acc f.name ⟨parsed, ft, []⟩))
          = Except.ok fields := h
      cases hpi : parseInputFields f.args all with
      | error e => rw [hpi] at h; simp at h
      | ok parsed =>
        rw [hpi] at h
        obtain ⟨hall, hpres⟩ := ih (insertReplace acc f.name ⟨parsed, ft, []⟩) fields h
        refine ⟨?_, ?_⟩
        · intro f' hf'
          rcases List.mem_cons.mp hf' with rfl | hf''
          · refine hpres f'.name ?_
            rw [lookupA_insertReplace_self]
            rfl
          · exact hall f' hf''
        · intro k hk
          exact hpres k (lookupA_isSome_of_mem_insertReplace _ _ _ _ hk)

theorem fillTypes_other :
    ∀ (l : List IntrospectionType) (all all' : TypeTable),
      fillTypes l all = .ok all' → ∀ n, n ∉ l.map (·.name) →
        lookupA all' n = lookupA all n := by
  intro l
  induction l with
  | nil =>
    intro all all' h n _
    replace h : Except.ok all = Except.ok all' := h
    simp only [Except.ok.injEq] at h
    subst h
    rfl
  | cons typ rest ih =>
    intro all all' h n hn
    replace h : (match fillType all typ with
      | .error e => .error e
      | .ok all2 => fillTypes rest all2) = Except.ok all' := h
    cases hft : fillType all typ with
    | error e => rw [hft] at h; simp at h
    | ok a1 =>
      rw [hft] at h
      have hn1 : n ≠ typ.name := by
        intro hcon
        exact hn (by simp [hcon])
      have hn2 : n ∉ rest.map (·.name) := by
        intro hcon
        exact hn (by simp [hcon])
      rw [ih a1 all' h n hn2]
      exact fillType_other hft n hn1

theorem fillTypes_isSome :
    ∀ (l : List IntrospectionType) (all all' : TypeTable),
      fillTypes l all = .ok all' → ∀ n, (lookupA all n).isSome = true →
        (lookupA all' n).isSome = true := by
  intro l
  induction l with
  | nil =>
    intro all all' h n hs
    replace h : Except.ok all = Except.ok all' := h
    simp only [Except.ok.injEq] at h
    subst h
    exact hs
  | cons typ rest ih =>
    intro all all' h n hs
    replace h : (match fillType all typ with
      | .error e => .error e
      | .ok all2 => fillTypes rest all2) = Except.ok all' := h
    cases hft : fillType all typ with
    | error e => rw [hft] at h; simp at h
    | ok a1 =>
      rw [hft] at h
      exact ih a1 all' h n (fillType_isSome hft n hs)

theorem fillTypes_object :
    ∀ (l : List IntrospectionType) (all all' : TypeTable),
      fillTypes l all = .ok all' → (l.map (·.name)).Nodup →
      ∀ t ∈ l, t.kind = "OBJECT" → ∀ o : GObject, lookupA all t.name = some (.object o) →
        ∃ fns, objFieldNames all' t.name = some fns ∧ ∀ f ∈ t.fields, f.name ∈ fns := by
  intro l
  induction l with
  | nil =>
    intro all all' _ _ t ht
    simp at ht
  | cons typ rest ih =>
    intro all all' h hnd t ht hk o hlo
    replace h : (match fillType all typ with
      | .error e => .error e
      | .ok all2 => fillTypes rest all2) = Except.ok all' := h
    cases hft : fillType all typ with
    | error e => rw [hft] at h; simp at h
    | ok a1 =>
      rw [hft] at h
      rw [List.map_cons, List.nodup_cons] at hnd
      rcases List.mem_cons.mp ht with rfl | ht'
      · obtain ⟨fields, o', hbf, hlo', ha1⟩ := fillType_object hk hft
        have hsame : lookupA a1 t.name = some (.object ⟨o'.name, fields⟩) := by
          rw [ha1]
          exact lookupA_insertReplace_self _ _ _
        have hfinal : lookupA all' t.name = some (.object ⟨o'.name, fields⟩) := by
          rw [fillTypes_other rest a1 all' h t.name hnd.1]
          exact hsame
        refine ⟨fields.map Prod.fst, objFieldNames_of_lookup hfinal, ?_⟩
        intro f hf
        rw [← lookupA_isSome_iff_mem_keys]
        exact (buildFields_mem t.fields [] fields hbf).1 f hf
      · have hne : t.name ≠ typ.name := by
          intro hcon
          exact hnd.1 (by rw [← hcon]; exact List.mem_map.mpr ⟨t, ht', rfl⟩)
        have hlo1 : lookupA a1 t.name = some (.object o) := by
          rw [fillType_other hft t.name hne]
          exact hlo
        exact ih a1 all' h hnd.2 t ht' hk o hlo1

/-! ## Name coherence of the parsed table -/

theorem namedName_shellOf (t : IntrospectionType) : namedName (shellOf t) = t.name := by
  unfold shellOf
  repeat' split
  all_goals rfl

theorem insertReplace_nameCoherent {l : TypeTable} {k : String} {v : GNamedType}
    (hc : nameCoherent l) (hv : namedName v = k) : nameCoherent (insertReplace l k v) := by
  intro n nt hn
  by_cases hk : n = k
  · subst hk
    rw [lookupA_insertReplace_self] at hn
    injection hn with he
    subst he
    exact hv
  · rw [lookupA_insertReplace_other _ _ _ _ hk] at hn
    exact hc n nt hn

theorem append_single_nameCoherent {acc : TypeTable} {k : String} {v : GNamedType}
    (hc : nameCoherent acc) (hv : namedName v = k) : nameCoherent (acc ++ [(k, v)]) := by
  intro n nt hn
  cases hl : lookupA acc n with
  | some w =>
    rw [lookupA_append_some _ _ _ _ hl] at hn
    injection hn with he
    subst he
    exact hc _ _ hl
  | none =>
    rw [lookupA_append_none _ _ _ hl] at hn
    by_cases hk : n = k
    · subst hk
      simp [lookupA] at hn
      subst hn
      exact hv
    · simp [lookupA, hk] at hn

theorem buildShells_nameCoherent :
    ∀ (l : List IntrospectionType) (acc sh : TypeTable),
      nameCoherent acc → buildShells l acc = .ok sh → nameCoherent sh := by
  intro l
  induction l with
  | nil =>
    intro acc sh hc h
    replace h : Except.ok acc = Except.ok sh := h
    simp only [Except.ok.injEq] at h
    subst h
    exact hc
  | cons t rest ih =>
    intro acc sh hc h
    cases hl : lookupA acc t.name with
    | some v => rw [buildShells_cons_dup hl] at h; simp at h
    | none =>
      rw [buildShells_cons_fresh hl] at h
      by_cases hv : validKindB t.kind = true
      · rw [if_pos hv] at h
        exact ih _ sh (append_single_nameCoherent hc (namedName_shellOf t)) h
      · simp only [Bool.not_eq_true] at hv
        rw [hv] at h
        simp only [Bool.false_eq_true, if_false] at h
        simp at h

theorem fillType_nameCoherent {all : TypeTable} {typ : IntrospectionType} {all2 : TypeTable}
    (hc : nameCoherent all) (h : fillType all typ = .ok all2) : nameCoherent all2 := by
  rcases fillType_shape2 h with heq | ⟨old, X, hlook, heq, hname⟩
  · rw [heq]; exact hc
  · rw [heq]
    refine insertReplace_nameCoherent hc ?_
    rw [hname]
    exact hc _ _ hlook

theorem fillTypes_nameCoherent :
    ∀ (l : List IntrospectionType) (all all' : TypeTable),
      nameCoherent all → fillTypes l all = .ok all' → nameCoherent all' := by
  intro l
  induction l with
  | nil =>
    intro all all' hc h
    replace h : Except.ok all = Except.ok all' := h
    simp only [Except.ok.injEq] at h
    subst h
    exact hc
  | cons typ rest ih =>
    intro all all' hc h
    replace h : (match fillType all typ with
      | .error e => .error e
      | .ok all2 => fillTypes rest all2) = Except.ok all' := h
    cases hft : fillType all typ with
    | error e => rw [hft] at h; simp at h
    | ok a1 =>
      rw [hft] at h
      exact ih a1 all' (fillType_nameCoherent hc hft) h

/-! ## Summary facts about `parseSchema` -/

theorem shellOf_object {t : IntrospectionType} (hk : t.kind = "OBJECT") :
    shellOf t = .object ⟨t.name, []⟩ := by
  unfold shellOf
  rw [hk]
  rfl

theorem parseSchema_ok_facts {m : IntrospectionQueryResult} {all : TypeTable}
    (h : parseSchema m = .ok all) :
    ((m.schema.types.map (·.name)).Nodup) ∧
    (∀ t ∈ m.schema.types, (lookupA all t.name).isSome = true) ∧
    (∀ t ∈ m.schema.types, t.kind = "OBJECT" →
      ∃ fns, objFieldNames all t.name = some fns ∧ ∀ f ∈ t.fields, f.name ∈ fns) ∧
    nameCoherent all := by
  unfold parseSchema at h
  cases hbs : buildShells m.schema.types [] with
  | error e => rw [hbs] at h; simp at h
  | ok sh =>
    rw [hbs] at h
    obtain ⟨hnd, _, hprops, _⟩ := buildShells_ok m.schema.types [] sh hbs
    refine ⟨hnd, ?_, ?_, ?_⟩
    · intro t ht
      refine fillTypes_isSome m.schema.types sh all h t.name ?_
      rw [(hprops t ht).2]
      rfl
    · intro t ht hk
      refine fillTypes_object m.schema.types sh all h hnd t ht hk ⟨t.name, []⟩ ?_
      rw [(hprops t ht).2, shellOf_object hk]
    · refine fillTypes_nameCoherent m.schema.types sh all ?_ h
      refine buildShells_nameCoherent m.schema.types [] sh ?_ hbs
      intro n nt hn
      simp [lookupA] at hn

/-! ## Stage decomposition of `ConvertVersionedSchemas` -/

theorem convert_ok_parts {t : ServiceSchemas} {r : SchemaWithFederationInfo}
    (h : ConvertVersionedSchemas t = .ok r) :
    ∃ byName merged types0 t2 infos,
      intersectedSchemas t = .ok byName ∧
      mergeSchemaSlice (byName.map Prod.snd) .Union = .ok merged ∧
      parseSchema merged = .ok types0 ∧
      validateAllFederatedObjects byName types0 = .ok () ∧
      processServices byName byName types0 [] = .ok (t2, infos) ∧
      validateFieldsReturningFederatedObject byName t2 infos = .ok () ∧
      r = ⟨lookupA t2 "Query", lookupA t2 "Mutation", t2, infos⟩ := by
  unfold ConvertVersionedSchemas at h
  cases h1 : intersectedSchemas t with
  | error e => rw [h1] at h; simp at h
  | ok byName =>
    rw [h1] at h
    replace h : (match mergeSchemaSlice (byName.map Prod.snd) .Union with
      | .error e => .error e
      | .ok merged =>
        match parseSchema merged with
        | .error e => .error e
        | .ok types =>
          match validateAllFederatedObjects byName types with
          | .error e => .error e
          | .ok () =>
            match processServices byName byName types [] with
            | .error e => .error e
            | .ok (types2, infos) =>
              match validateFieldsReturningFederatedObject byName types2 infos with
              | .error e => .error (wrapGo "Field funcs can not shadow objects: " e)
              | .ok () =>
                Except.ok (⟨lookupA types2 "Query", lookupA types2 "Mutation", types2, infos⟩ : SchemaWithFederationInfo)) = Except.ok r := h
    cases h2 : mergeSchemaSlice (byName.map Prod.snd) .Union with
    | error e => rw [h2] at h; simp at h
    | ok merged =>
      rw [h2] at h
      replace h : (match parseSchema merged with
        | .error e => .error e
        | .ok types =>
          match validateAllFederatedObjects byName types with
          | .error e => .error e
          | .ok () =>
            match processServices byName byName types [] with
            | .error e => .error e
            | .ok (types2, infos) =>
              match validateFieldsReturningFederatedObject byName types2 infos with
              | .error e => .error (wrapGo "Field funcs can not shadow objects: " e)
              | .ok () =>
                Except.ok (⟨lookupA types2 "Query", lookupA types2 "Mutation", types2, infos⟩ : SchemaWithFederationInfo)) = Except.ok r := h
      cases h3 : parseSchema merged with
      | error e => rw [h3] at h; simp at h
      | ok types0 =>
        rw [h3] at h
        replace h : (match validateAllFederatedObjects byName types0 with
          | .error e => .error e
          | .ok () =>
            match processServices byName byName types0 [] with
            | .error e => .error e
            | .ok (types2, infos) =>
              match validateFieldsReturningFederatedObject byName types2 infos with
              | .error e => .error (wrapGo "Field funcs can not shadow objects: " e)
              | .ok () =>
                Except.ok (⟨lookupA types2 "Query", lookupA types2 "Mutation", types2, infos⟩ : SchemaWithFederationInfo)) = Except.ok r := h
        cases h4 : validateAllFederatedObjects byName types0 with
        | error e => rw [h4] at h; simp at h
        | ok u =>
          cases u
          rw [h4] at h
          replace h : (match processServices byName byName types0 [] with
            | .error e => .error e
            | .ok (types2, infos) =>
              match validateFieldsReturningFederatedObject byName types2 infos with
              | .error e => .error (wrapGo "Field funcs can not shadow objects: " e)
              | .ok () =>
                Except.ok (⟨lookupA types2 "Query", lookupA types2 "Mutation", types2, infos⟩ : SchemaWithFederationInfo)) = Except.ok r := h
          cases h5 : processServices byName byName types0 [] with
          | error e => rw [h5] at h; simp at h
          | ok p =>
            obtain ⟨t2, infos⟩ := p
            rw [h5] at h
            replace h : (match validateFieldsReturningFederatedObject byName t2 infos with
              | .error e => .error (wrapGo "Field funcs can not shadow objects: " e)
              | .ok () =>
                Except.ok (⟨lookupA t2 "Query", lookupA t2 "Mutation", t2, infos⟩ : SchemaWithFederationInfo)) = Except.ok r := h
            cases h6 : validateFieldsReturningFederatedObject byName t2 infos with
            | error e => rw [h6] at h; simp at h
            | ok u2 =>
              cases u2
              rw [h6] at h
              replace h : Except.ok (α := SchemaWithFederationInfo) (ε := GoErr)
                  ⟨lookupA t2 "Query", lookupA t2 "Mutation", t2, infos⟩ = Except.ok r := h
              simp only [Except.ok.injEq] at h
              exact ⟨byName, merged, types0, t2, infos, rfl, h2, h3, h4, h5, h6, h.symm⟩

/-- If a stage of `ConvertVersionedSchemas` fails, the whole conversion
does not succeed (contrapositive of `convert_ok_parts`, specialized per
use below). -/
theorem convert_not_ok_of_validateAll {t : ServiceSchemas}
    {byName : List (String × IntrospectionQueryResult)} {merged : IntrospectionQueryResult}
    {types0 : TypeTable} (h1 : intersectedSchemas t = .ok byName)
    (h2 : mergeSchemaSlice (byName.map Prod.snd) .Union = .ok merged)
    (h3 : parseSchema merged = .ok types0)
    (h4 : validateAllFederatedObjects byName types0 ≠ .ok ()) :
    isOkE (ConvertVersionedSchemas t) = false := by
  cases hr : ConvertVersionedSchemas t with
  | error e => rfl
  | ok r =>
    exfalso
    obtain ⟨bn, m, ty, t2, infos, g1, g2, g3, g4, _, _, _⟩ := convert_ok_parts hr
    rw [h1] at g1
    injection g1 with hbn
    subst hbn
    rw [h2] at g2
    injection g2 with hm
    subst hm
    rw [h3] at g3
    injection g3 with hty
    subst hty
    exact h4 g4

/-! ## Helpers for the validation claims -/

theorem okUnit_of_isOkE {x : Except GoErr Unit} (h : isOkE x = true) : x = .ok () := by
  cases x with
  | ok u => cases u; rfl
  | error e => simp [isOkE] at h

theorem federatedOnSome_of_federatedAsObject
    {byName : List (String × IntrospectionQueryResult)} {objName : String}
    (h : federatedAsObject byName objName = true) : federatedOnSome byName objName = true := by
  unfold federatedAsObject at h
  unfold federatedOnSome
  rw [List.any_eq_true] at h ⊢
  obtain ⟨p, hp, hin⟩ := h
  refine ⟨p, hp, ?_⟩
  rw [List.any_eq_true] at hin ⊢
  obtain ⟨typ, htyp, hc⟩ := hin
  refine ⟨typ, htyp, ?_⟩
  simp only [Bool.and_eq_true] at hc
  simp [hc.1.1, hc.2]

theorem validateFederatedObjects_eq_vfoServices
    {byName : List (String × IntrospectionQueryResult)} {objName : String}
    (hf : federatedOnSome byName objName = true)
    (hq : objName ≠ "Query") (hm : objName ≠ "Mutation") :
    validateFederatedObjects byName objName = vfoServices objName byName := by
  unfold validateFederatedObjects
  rw [hf]
  simp [bne_iff_ne, hq, hm]

theorem vfoServices_err_of_violation
    {byName : List (String × IntrospectionQueryResult)} {objName : String}
    {p : String × IntrospectionQueryResult} {typ : IntrospectionType}
    (hp : p ∈ byName) (htyp : typ ∈ p.2.schema.types) (hname : typ.name = objName)
    (hfed : typHasField typ federationField = false) :
    isOkE (vfoServices objName byName) = false := by
  rw [isOkE_vfoServices]
  by_cases hall : (byName.all fun q => isOkE (vfoTypes objName q.2.schema.types)) = true
  · exfalso
    have h1 := List.all_eq_true.mp hall p hp
    rw [isOkE_vfoTypes] at h1
    have h2 := List.all_eq_true.mp h1 typ htyp
    rw [hname, hfed] at h2
    simp at h2
  · simpa using hall

theorem objGName_coherent {t : TypeTable} {n oname : String}
    (hc : nameCoherent t) (h : objGName t n = some oname) : oname = n := by
  unfold objGName at h
  cases hlk : lookupA t n with
  | none => rw [hlk] at h; simp at h
  | some nt =>
    rw [hlk] at h
    have hn := hc n nt hlk
    cases nt with
    | object o =>
      replace h : some o.name = some oname := h
      injection h with h
      rw [← h]
      exact hn
    | inputObject io => exact absurd (h : (none : Option String) = some oname) (by simp)
    | scalar s => exact absurd (h : (none : Option String) = some oname) (by simp)
    | union u => exact absurd (h : (none : Option String) = some oname) (by simp)
    | enum e => exact absurd (h : (none : Option String) = some oname) (by simp)

/-- C2: if an object type other than `Query`/`Mutation` carries the
`_federation` marker in at least one service's (version-intersected)
schema, then `ConvertVersionedSchemas` fails whenever some service
declares a type of that name without the marker, and
`validateFederatedObjects` passes when every declaring service carries the
marker. -/
theorem C2_federation_consistency :
    ∀ (t : ServiceSchemas) (byName : List (String × IntrospectionQueryResult)) (objName : String),
      intersectedSchemas t = .ok byName →
      objName ≠ "Query" → objName ≠ "Mutation" →
      federatedAsObject byName objName = true →
      ((∃ p ∈ byName, ∃ typ ∈ p.2.schema.types, typ.name = objName ∧
          typHasField typ federationField = false) →
        isOkE (ConvertVersionedSchemas t) = false) ∧
      ((∀ p ∈ byName, ∀ typ ∈ p.2.schema.types, typ.name = objName →
          typHasField typ federationField = true) →
        validateFederatedObjects byName objName = .ok ()) := by
  intro t byName objName h1 hq hm hfed
  constructor
  · rintro ⟨p, hp, typ, htyp, hname, hmarker⟩
    cases hr : ConvertVersionedSchemas t with
    | error e => rfl
    | ok r =>
      exfalso
      obtain ⟨bn, merged, types0, t2, infos, g1, g2, g3, g4, _, _, _⟩ := convert_ok_parts hr
      rw [h1] at g1
      injection g1 with hbn
      subst hbn
      -- the violating type's name reaches the merged, parsed table
      obtain ⟨po, hpo, hpc⟩ := List.any_eq_true.mp hfed
      rw [List.any_eq_true] at hpc
      obtain ⟨ftyp, hftyp, hfc⟩ := hpc
      simp only [Bool.and_eq_true, beq_iff_eq] at hfc
      have hmem : po.2 ∈ byName.map Prod.snd := List.mem_map.mpr ⟨po, hpo, rfl⟩
      obtain ⟨tm, htm, htmname, _, _⟩ :=
        mergeSchemaSlice_union_ok g2 po.2 hmem ftyp hftyp
      obtain ⟨_, hsome, _, _⟩ := parseSchema_ok_facts g3
      have hs := hsome tm htm
      cases hlk : lookupA types0 tm.name with
      | none => rw [hlk] at hs; simp at hs
      | some nt =>
        have hmem2 : (tm.name, nt) ∈ types0 := lookupA_mem types0 tm.name nt hlk
        have hall : ∀ q ∈ types0, isOkE (validateFederatedObjects byName q.1) = true := by
          have := g4
          have hisok : isOkE (validateAllFederatedObjects byName types0) = true := by
            rw [this]; rfl
          rw [isOkE_validateAllFederatedObjects] at hisok
          exact fun q hqm => List.all_eq_true.mp hisok q hqm
        have hok := hall (tm.name, nt) hmem2
        have hnameO : tm.name = objName := htmname.trans hfc.1.1
        rw [hnameO] at hok
        rw [validateFederatedObjects_eq_vfoServices
          (federatedOnSome_of_federatedAsObject hfed) hq hm] at hok
        rw [vfoServices_err_of_violation hp htyp hname hmarker] at hok
        simp at hok
  · intro hall
    unfold validateFederatedObjects
    by_cases hcond : (federatedOnSome byName objName && objName != "Query" &&
        objName != "Mutation") = true
    · rw [hcond]
      simp only [if_true]
      refine okUnit_of_isOkE ?_
      rw [isOkE_vfoServices]
      rw [List.all_eq_true]
      intro q hqm
      rw [isOkE_vfoTypes]
      rw [List.all_eq_true]
      intro typ htyp
      by_cases hname : typ.name = objName
      · rw [hall q hqm typ htyp hname]
        simp
      · simp [hname]
    · simp only [Bool.not_eq_true] at hcond
      rw [hcond]
      simp

/-- C3: for a `Federation` entry point `<sp>_<objName>` declared in some
service's schema, whose argument's root type resolves to an input object
of the merged, parsed table with input field `K`: if some service's copy
of `objName` carries the `_federation` marker but lacks `K`,
`validateFederationKeys` returns the invalid-federation-key error and
`ConvertVersionedSchemas` fails; if every marked copy exposes `K`, the
validation passes. -/
theorem C3_federation_key_availability :
    ∀ (t : ServiceSchemas) (byName : List (String × IntrospectionQueryResult))
      (merged : IntrospectionQueryResult) (types0 : TypeTable)
      (service : String) (svcIqr : IntrospectionQueryResult) (fedTyp : IntrospectionType)
      (entry : IntrospectionField) (sp objName : String)
      (arg : IntrospectionInputField) (aref : IntrospectionTypeRef)
      (inObj : GInputObject) (K : String),
      intersectedSchemas t = .ok byName →
      mergeSchemaSlice (byName.map Prod.snd) .Union = .ok merged →
      parseSchema merged = .ok types0 →
      (service, svcIqr) ∈ byName →
      fedTyp ∈ svcIqr.schema.types → fedTyp.name = "Federation" →
      entry ∈ fedTyp.fields →
      splitN2Underscore entry.name = [sp, objName] →
      arg ∈ entry.args → arg.type = some aref →
      lookupA types0 (getRootType aref).name = some (.inputObject inObj) →
      K ∈ inObj.inputFields.map Prod.fst →
      ((∃ p ∈ byName, ∃ typ ∈ p.2.schema.types, typ.name = objName ∧
          typHasField typ federationField = true ∧ typHasField typ K = false) →
        validateFederationKeys byName objName K =
          .error (.err ("Invalid federation key " ++ K)) ∧
        isOkE (ConvertVersionedSchemas t) = false) ∧
      ((∀ p ∈ byName, ∀ typ ∈ p.2.schema.types,
          typ.name = objName → typHasField typ federationField = true →
            typHasField typ K = true) →
        validateFederationKeys byName objName K = .ok ()) := by
  intro t byName merged types0 service svcIqr fedTyp entry sp objName arg aref inObj K
  intro h1 h2 h3 hsvc hfedTyp hfedName hentry hsplit harg haref hlook hK
  constructor
  · rintro ⟨p, hp, typ, htyp, hname, hmarker, hnokey⟩
    have herr : validateFederationKeys byName objName K =
        .error (.err ("Invalid federation key " ++ K)) := by
      rcases validateFederationKeys_dichotomy objName K byName with hok | he
      · exfalso
        have hisok : isOkE (validateFederationKeys byName objName K) = true := by
          rw [hok]; rfl
        rw [isOkE_validateFederationKeys] at hisok
        have h4 := List.all_eq_true.mp hisok p hp
        rw [isOkE_vfkTypes] at h4
        have h5 := List.all_eq_true.mp h4 typ htyp
        rw [hname, hmarker, hnokey] at h5
        simp at h5
      · exact he
    refine ⟨herr, ?_⟩
    cases hr : ConvertVersionedSchemas t with
    | error e => rfl
    | ok r =>
      exfalso
      obtain ⟨bn, mg, ty0, t2, infos, g1, g2, g3, g4, g5, g6, g7⟩ := convert_ok_parts hr
      rw [h1] at g1; injection g1 with hbn; subst hbn
      rw [h2] at g2; injection g2 with hmg; subst hmg
      rw [h3] at g3; injection g3 with hty; subst hty
      obtain ⟨_, _, hps⟩ := processServices_ok byName types0 [] t2 infos g5
      obtain ⟨hfedPart, _⟩ := hps (service, svcIqr) hsvc fedTyp hfedTyp
      obtain ⟨hok, _⟩ := hfedPart hfedName entry hentry
      obtain ⟨sp', objName', hsplit', oname, fns, hgname, hfns, hargs⟩ := hok
      rw [hsplit] at hsplit'
      injection hsplit' with e1 e2
      injection e2 with e2 _
      subst e1; subst e2
      obtain ⟨aref', haref', ifls, hifls, hkeys⟩ := hargs arg harg
      rw [haref] at haref'
      injection haref' with he; subst he
      have hio : ioFields types0 (getRootType aref).name = some inObj.inputFields :=
        ioFields_of_lookup hlook
      rw [hio] at hifls
      injection hifls with hifls
      subst hifls
      obtain ⟨hkOk, _⟩ := hkeys K hK
      obtain ⟨_, _, _, hcoh⟩ := parseSchema_ok_facts h3
      have honame : oname = objName := objGName_coherent hcoh hgname
      rw [honame] at hkOk
      rw [herr] at hkOk
      simp [isOkE_error] at hkOk
  · intro hall
    refine okUnit_of_isOkE ?_
    rw [isOkE_validateFederationKeys]
    rw [List.all_eq_true]
    intro p hp
    rw [isOkE_vfkTypes]
    rw [List.all_eq_true]
    intro typ htyp
    by_cases hname : typ.name = objName
    · by_cases hfed : typHasField typ federationField = true
      · rw [hall p hp typ htyp hname hfed]
        simp [hname]
      · simp only [Bool.not_eq_true] at hfed
        simp [hname, hfed]
    · simp [hname]

/-- C4: whenever `ConvertVersionedSchemas` succeeds, every field of every
OBJECT type of a service's version-intersected schema has the service
recorded in the returned field-info table
(`Fields[F].Services[S] = true`). -/
theorem C4_services_annotation :
    ∀ (t : ServiceSchemas) (r : SchemaWithFederationInfo)
      (byName : List (String × IntrospectionQueryResult)) (sv : String)
      (iqr : IntrospectionQueryResult) (typ : IntrospectionType) (f : IntrospectionField),
      ConvertVersionedSchemas t = .ok r →
      intersectedSchemas t = .ok byName →
      (sv, iqr) ∈ byName →
      typ ∈ iqr.schema.types → typ.kind = "OBJECT" → f ∈ typ.fields →
      hasServiceB r.fields (some (typ.name, f.name)) sv = true := by
  intro t r byName sv iqr typ f hr h1 hsvc htyp hkind hf
  obtain ⟨bn, merged, types0, t2, infos, g1, g2, g3, g4, g5, g6, g7⟩ := convert_ok_parts hr
  rw [h1] at g1; injection g1 with hbn; subst hbn
  have hmem : iqr ∈ byName.map Prod.snd := List.mem_map.mpr ⟨(sv, iqr), hsvc, rfl⟩
  obtain ⟨tm, htm, htmname, htmkind, hfsup⟩ :=
    mergeSchemaSlice_union_ok g2 iqr hmem typ htyp
  obtain ⟨fm, hfm, hfmname⟩ := hfsup f hf
  obtain ⟨_, _, hobjf, _⟩ := parseSchema_ok_facts g3
  obtain ⟨fns, hfns, hcov⟩ := hobjf tm htm (htmkind.trans hkind)
  have hfn : f.name ∈ fns := by rw [← hfmname]; exact hcov fm hfm
  obtain ⟨_, _, hps⟩ := processServices_ok byName types0 [] t2 infos g5
  obtain ⟨_, hobj⟩ := hps (sv, iqr) hsvc typ htyp
  have hres := hobj hkind f hf fns (htmname ▸ hfns) hfn
  rw [g7]
  exact hres

/-- C5: whenever `ConvertVersionedSchemas` succeeds, each Federation entry
point `<sp>_<objName>` of service `S`'s schema marks
`FederatedKey[S] = true` on every merged field of `objName` named by an
input field of the entry's input-object argument. -/
theorem C5_federated_key_annotation :
    ∀ (t : ServiceSchemas) (r : SchemaWithFederationInfo)
      (byName : List (String × IntrospectionQueryResult))
      (types0 : TypeTable) (merged : IntrospectionQueryResult)
      (S : String) (iqr : IntrospectionQueryResult) (fedTyp : IntrospectionType)
      (entry : IntrospectionField) (sp objName : String)
      (arg : IntrospectionInputField) (aref : IntrospectionTypeRef)
      (ifls : List (String × GType)) (K : String) (fns : List String),
      ConvertVersionedSchemas t = .ok r →
      intersectedSchemas t = .ok byName →
      mergeSchemaSlice (byName.map Prod.snd) .Union = .ok merged →
      parseSchema merged = .ok types0 →
      (S, iqr) ∈ byName →
      fedTyp ∈ iqr.schema.types → fedTyp.name = "Federation" →
      entry ∈ fedTyp.fields →
      splitN2Underscore entry.name = [sp, objName] →
      arg ∈ entry.args → arg.type = some aref →
      ioFields types0 (getRootType aref).name = some ifls →
      K ∈ ifls.map Prod.fst →
      objFieldNames types0 objName = some fns → K ∈ fns →
      hasFedKeyB r.types objName K S = true := by
  intro t r byName types0 merged S iqr fedTyp entry sp objName arg aref ifls K fns
  intro hr h1 h2 h3 hsvc hfedTyp hfedName hentry hsplit harg haref hio hK hfns hKf
  obtain ⟨bn, mg, ty0, t2, infos, g1, g2, g3, g4, g5, g6, g7⟩ := convert_ok_parts hr
  rw [h1] at g1; injection g1 with hbn; subst hbn
  rw [h2] at g2; injection g2 with hmg; subst hmg
  rw [h3] at g3; injection g3 with hty; subst hty
  obtain ⟨_, _, hps⟩ := processServices_ok byName types0 [] t2 infos g5
  obtain ⟨hfedPart, _⟩ := hps (S, iqr) hsvc fedTyp hfedTyp
  obtain ⟨_, hest⟩ := hfedPart hfedName entry hentry
  have hres := hest sp objName hsplit arg harg aref haref ifls hio K hK fns hfns hKf
  rw [g7]
  exact hres

theorem convert_ok_entryOK {t : ServiceSchemas} {r : SchemaWithFederationInfo}
    {byName : List (String × IntrospectionQueryResult)}
    {merged : IntrospectionQueryResult} {types0 : TypeTable}
    {service : String} {iqr : IntrospectionQueryResult}
    {fedTyp : IntrospectionType} {entry : IntrospectionField}
    (hr : ConvertVersionedSchemas t = .ok r)
    (h1 : intersectedSchemas t = .ok byName)
    (h2 : mergeSchemaSlice (byName.map Prod.snd) .Union = .ok merged)
    (h3 : parseSchema merged = .ok types0)
    (hsvc : (service, iqr) ∈ byName)
    (hfedTyp : fedTyp ∈ iqr.schema.types) (hfedName : fedTyp.name = "Federation")
    (hentry : entry ∈ fedTyp.fields) :
    entryOK byName types0 entry := by
  obtain ⟨bn, mg, ty0, t2, infos, g1, g2, g3, g4, g5, g6, g7⟩ := convert_ok_parts hr
  rw [h1] at g1; injection g1 with hbn; subst hbn
  rw [h2] at g2; injection g2 with hmg; subst hmg
  rw [h3] at g3; injection g3 with hty; subst hty
  obtain ⟨_, _, hps⟩ := processServices_ok byName types0 [] t2 infos g5
  obtain ⟨hfedPart, _⟩ := hps (service, iqr) hsvc fedTyp hfedTyp
  obtain ⟨hok, _⟩ := hfedPart hfedName entry hentry
  exact hok

/-- C6 (amended): of the four malformation conditions the claim lists, the
entry-point loop rejects an entry whose name does not split at an
underscore, whose type-name part does not name an object of the merged
schema, whose argument's root type is not an input object of the merged
schema, and whose argument input field is not a field name of the object;
but "exactly one input-object argument" is not enforced: an entry with
zero arguments is accepted (see the zero-argument counterexample
theorem). -/
theorem C6_entry_point_rejections :
    ∀ (t : ServiceSchemas) (byName : List (String × IntrospectionQueryResult))
      (merged : IntrospectionQueryResult) (types0 : TypeTable)
      (service : String) (iqr : IntrospectionQueryResult)
      (fedTyp : IntrospectionType) (entry : IntrospectionField),
      intersectedSchemas t = .ok byName →
      mergeSchemaSlice (byName.map Prod.snd) .Union = .ok merged →
      parseSchema merged = .ok types0 →
      (service, iqr) ∈ byName →
      fedTyp ∈ iqr.schema.types → fedTyp.name = "Federation" →
      entry ∈ fedTyp.fields →
      ((∀ sp objName, splitN2Underscore entry.name ≠ [sp, objName]) →
        isOkE (ConvertVersionedSchemas t) = false) ∧
      (∀ sp objName, splitN2Underscore entry.name = [sp, objName] →
        (objGName types0 objName = none →
          isOkE (ConvertVersionedSchemas t) = false) ∧
        (∀ arg ∈ entry.args, ∀ aref, arg.type = some aref →
          ioFields types0 (getRootType aref).name = none →
          isOkE (ConvertVersionedSchemas t) = false) ∧
        (∀ arg ∈ entry.args, ∀ aref, arg.type = some aref →
          ∀ ifls, ioFields types0 (getRootType aref).name = some ifls →
          ∀ K ∈ ifls.map Prod.fst, ∀ fns, objFieldNames types0 objName = some fns →
            K ∉ fns → isOkE (ConvertVersionedSchemas t) = false)) := by
  intro t byName merged types0 service iqr fedTyp entry
  intro h1 h2 h3 hsvc hfedTyp hfedName hentry
  constructor
  · intro hno
    cases hr : ConvertVersionedSchemas t with
    | error e => rfl
    | ok r =>
      exfalso
      obtain ⟨sp', objName', hsplit', _⟩ :=
        convert_ok_entryOK hr h1 h2 h3 hsvc hfedTyp hfedName hentry
      exact hno sp' objName' hsplit'
  · intro sp objName hsplit
    refine ⟨?_, ?_, ?_⟩
    · intro hnone
      cases hr : ConvertVersionedSchemas t with
      | error e => rfl
      | ok r =>
        exfalso
        obtain ⟨sp', objName', hsplit', oname, fns', hgname, _, _⟩ :=
          convert_ok_entryOK hr h1 h2 h3 hsvc hfedTyp hfedName hentry
        rw [hsplit] at hsplit'
        injection hsplit' with e1 e2
        injection e2 with e2 _
        subst e1; subst e2
        rw [hnone] at hgname
        exact Option.noConfusion hgname
    · intro arg harg aref haref hnone
      cases hr : ConvertVersionedSchemas t with
      | error e => rfl
      | ok r =>
        exfalso
        obtain ⟨sp', objName', hsplit', oname, fns', hgname, hfns', hargs⟩ :=
          convert_ok_entryOK hr h1 h2 h3 hsvc hfedTyp hfedName hentry
        obtain ⟨aref', haref', ifls, hifls, _⟩ := hargs arg harg
        rw [haref] at haref'
        injection haref' with he; subst he
        rw [hnone] at hifls
        exact Option.noConfusion hifls
    · intro arg harg aref haref ifls hifls K hK fns hfns hnot
      cases hr : ConvertVersionedSchemas t with
      | error e => rfl
      | ok r =>
        exfalso
        obtain ⟨sp', objName', hsplit', oname, fns', hgname, hfns', hargs⟩ :=
          convert_ok_entryOK hr h1 h2 h3 hsvc hfedTyp hfedName hentry
        rw [hsplit] at hsplit'
        injection hsplit' with e1 e2
        injection e2 with e2 _
        subst e1; subst e2
        obtain ⟨aref', haref', ifls', hifls', hkeys⟩ := hargs arg harg
        rw [haref] at haref'
        injection haref' with he; subst he
        rw [hifls] at hifls'
        injection hifls' with he2
        subst he2
        obtain ⟨_, hmemf⟩ := hkeys K hK
        rw [hfns] at hfns'
        injection hfns' with he3
        subst he3
        exact hnot hmemf

/-! ## Error-direction lemmas for `buildShells` (first pass) -/

theorem buildShells_dup_err :
    ∀ (l : List IntrospectionType) (acc : TypeTable),
      (∀ t ∈ l, validKindB t.kind = true) →
      (¬ (l.map (·.name)).Nodup ∨ ∃ t ∈ l, (lookupA acc t.name).isSome = true) →
      ∃ n, buildShells l acc = .error (.err ("duplicate type " ++ n)) := by
  intro l
  induction l with
  | nil =>
    intro acc _ hbad
    exfalso
    rcases hbad with h | ⟨t, ht, _⟩
    · exact h (by simp)
    · simp at ht
  | cons t rest ih =>
    intro acc hvalid hbad
    cases hl : lookupA acc t.name with
    | some v => exact ⟨t.name, buildShells_cons_dup hl⟩
    | none =>
      have hv := hvalid t (List.mem_cons_self t rest)
      have hstep : buildShells (t :: rest) acc =
          buildShells rest (acc ++ [(t.name, shellOf t)]) := by
        rw [buildShells_cons_fresh hl, if_pos hv]
      rw [hstep]
      refine ih (acc ++ [(t.name, shellOf t)])
        (fun t' ht' => hvalid t' (List.mem_cons_of_mem t ht')) ?_
      have hselfsome : ∀ n : String, n = t.name →
          (lookupA (acc ++ [(t.name, shellOf t)]) n).isSome = true := by
        intro n he
        subst he
        rw [lookupA_append_none _ _ _ hl]
        simp [lookupA]
      rcases hbad with hnd | ⟨t', ht', hsome⟩
      · by_cases hmem : t.name ∈ rest.map (·.name)
        · right
          obtain ⟨t', ht', hname⟩ := List.mem_map.mp hmem
          exact ⟨t', ht', hselfsome t'.name hname⟩
        · left
          intro hnd2
          exact hnd (by rw [List.map_cons, List.nodup_cons]; exact ⟨hmem, hnd2⟩)
      · rcases List.mem_cons.mp ht' with rfl | ht''
        · rw [hl] at hsome
          exact absurd hsome (by simp)
        · right
          refine ⟨t', ht'', ?_⟩
          cases hl2 : lookupA acc t'.name with
          | some w =>
            rw [lookupA_append_some acc _ t'.name w hl2]
            rfl
          | none =>
            rw [hl2] at hsome
            exact absurd hsome (by simp)

theorem buildShells_badkind_err :
    ∀ (l : List IntrospectionType) (acc : TypeTable),
      (l.map (·.name)).Nodup →
      (∀ t ∈ l, lookupA acc t.name = none) →
      (∃ t ∈ l, validKindB t.kind = false) →
      ∃ k, validKindB k = false ∧
        buildShells l acc = .error (.err ("unknown type kind " ++ k)) := by
  intro l
  induction l with
  | nil =>
    intro acc _ _ hbad
    exfalso
    obtain ⟨t, ht, _⟩ := hbad
    simp at ht
  | cons t rest ih =>
    intro acc hnd hfresh hbad
    have hl := hfresh t (List.mem_cons_self t rest)
    rw [buildShells_cons_fresh hl]
    by_cases hv : validKindB t.kind = true
    · rw [if_pos hv]
      rw [List.map_cons, List.nodup_cons] at hnd
      refine ih (acc ++ [(t.name, shellOf t)]) hnd.2 ?_ ?_
      · intro t' ht'
        have h1 := hfresh t' (List.mem_cons_of_mem t ht')
        rw [lookupA_append_none _ _ _ h1]
        have hne : t'.name ≠ t.name := by
          intro he
          exact hnd.1 (List.mem_map.mpr ⟨t', ht', he⟩)
        simp [lookupA, hne]
      · rcases hbad with ⟨t', ht', hbk⟩
        rcases List.mem_cons.mp ht' with rfl | ht''
        · rw [hv] at hbk
          exact absurd hbk (by simp)
        · exact ⟨t', ht'', hbk⟩
    · simp only [Bool.not_eq_true] at hv
      rw [hv]
      simp only [Bool.false_eq_true, if_false]
      exact ⟨t.kind, hv, rfl⟩

/-! ## Kind discipline of `parseInputFields` -/

theorem parseInputFieldsAux_bad :
    ∀ (all : TypeTable) (source : List IntrospectionInputField)
      (acc : List (String × GType)),
      (∃ f ∈ source, ∃ raw, lookupType f.type = .ok raw ∧
        (raw.kind = "OBJECT" ∨ raw.kind = "UNION")) →
      isOkE (parseInputFieldsAux all source acc) = false := by
  intro all source
  induction source with
  | nil =>
    intro acc hbad
    exfalso
    obtain ⟨f, hf, _⟩ := hbad
    simp at hf
  | cons f rest ih =>
    intro acc hbad
    obtain ⟨g, hg, raw, hlt, hbk⟩ := hbad
    have hh : parseInputFieldsAux all (f :: rest) acc = (match lookupType f.type with
      | .error _ =>
        .error (.panic "runtime error: invalid memory address or nil pointer dereference")
      | .ok raw0 =>
        if raw0.kind == "INPUT_OBJECT" || raw0.kind == "SCALAR" || raw0.kind == "ENUM" then
          match lookupTypeRef f.type all with
          | .error e => .error (wrapGo ("field " ++ f.name ++ " has bad typ: ") e)
          | .ok t => parseInputFieldsAux all rest (insertReplace acc f.name t)
        else
          .error (.err ("input field " ++ f.name ++ " has bad typ: " ++ raw0.kind))) := rfl
    rw [hh]
    cases hl : lookupType f.type with
    | error e => rfl
    | ok raw0 =>
      show isOkE (if (raw0.kind == "INPUT_OBJECT" || raw0.kind == "SCALAR" ||
          raw0.kind == "ENUM") = true then
        match lookupTypeRef f.type all with
        | .error e => .error (wrapGo ("field " ++ f.name ++ " has bad typ: ") e)
        | .ok t => parseInputFieldsAux all rest (insertReplace acc f.name t)
      else .error (.err ("input field " ++ f.name ++ " has bad typ: " ++ raw0.kind))) = false
      by_cases hcond : (raw0.kind == "INPUT_OBJECT" || raw0.kind == "SCALAR" ||
          raw0.kind == "ENUM") = true
      · rw [if_pos hcond]
        cases hltr : lookupTypeRef f.type all with
        | error e => rfl
        | ok t2 =>
          refine ih (insertReplace acc f.name t2) ⟨g, ?_, raw, hlt, hbk⟩
          rcases List.mem_cons.mp hg with rfl | hg'
          · exfalso
            rw [hl] at hlt
            injection hlt with he
            subst he
            rcases hbk with hk | hk <;> rw [hk] at hcond <;> simp at hcond
          · exact hg'
      · rw [if_neg hcond]
        rfl

theorem parseInputFieldsAux_ok_kinds :
    ∀ (all : TypeTable) (source : List IntrospectionInputField)
      (acc res : List (String × GType)),
      parseInputFieldsAux all source acc = .ok res →
      ∀ f ∈ source, ∃ raw, lookupType f.type = .ok raw ∧
        (raw.kind = "INPUT_OBJECT" ∨ raw.kind = "SCALAR" ∨ raw.kind = "ENUM") := by
  intro all source
  induction source with
  | nil =>
    intro acc res h f hf
    simp at hf
  | cons f rest ih =>
    intro acc res h g hg
    replace h : (match lookupType f.type with
      | .error _ =>
        Except.error (GoErr.panic "runtime error: invalid memory address or nil pointer dereference")
      | .ok raw0 =>
        if raw0.kind == "INPUT_OBJECT" || raw0.kind == "SCALAR" || raw0.kind == "ENUM" then
          match lookupTypeRef f.type all with
          | .error e => .error (wrapGo ("field " ++ f.name ++ " has bad typ: ") e)
          | .ok t => parseInputFieldsAux all rest (insertReplace acc f.name t)
        else
          .error (.err ("input field " ++ f.name ++ " has bad typ: " ++ raw0.kind)))
        = Except.ok res := h
    cases hl : lookupType f.type with
    | error e => rw [hl] at h; simp at h
    | ok raw0 =>
      rw [hl] at h
      replace h : (if (raw0.kind == "INPUT_OBJECT" || raw0.kind == "SCALAR" ||
          raw0.kind == "ENUM") = true then
        match lookupTypeRef f.type all with
        | .error e => Except.error (wrapGo ("field " ++ f.name ++ " has bad typ: ") e)
        | .ok t => parseInputFieldsAux all rest (insertReplace acc f.name t)
      else Except.error (GoErr.err ("input field " ++ f.name ++ " has bad typ: " ++ raw0.kind)))
        = Except.ok res := h
      by_cases hcond : (raw0.kind == "INPUT_OBJECT" || raw0.kind == "SCALAR" ||
          raw0.kind == "ENUM") = true
      · rw [if_pos hcond] at h
        replace h : (match lookupTypeRef f.type all with
          | .error e => Except.error (wrapGo ("field " ++ f.name ++ " has bad typ: ") e)
          | .ok t => parseInputFieldsAux all rest (insertReplace acc f.name t))
            = Except.ok res := h
        cases hltr : lookupTypeRef f.type all with
        | error e => rw [hltr] at h; simp at h
        | ok t2 =>
          rw [hltr] at h
          rcases List.mem_cons.mp hg with rfl | hg'
          · refine ⟨raw0, hl, ?_⟩
            simp only [Bool.or_eq_true, beq_iff_eq] at hcond
            tauto
          · exact ih (insertReplace acc f.name t2) res h g hg'
      · rw [if_neg hcond] at h
        simp at h

/-! ## Per-type extraction from pass two -/

theorem fillTypes_ok_each :
    ∀ (l : List IntrospectionType) (all all' : TypeTable),
      fillTypes l all = .ok all' →
      ∀ typ ∈ l, ∃ t1 t2, fillType t1 typ = .ok t2 := by
  intro l
  induction l with
  | nil =>
    intro all all' h typ ht
    simp at ht
  | cons t rest ih =>
    intro all all' h typ ht
    replace h : (match fillType all t with
      | .error e => Except.error e
      | .ok all2 => fillTypes rest all2) = Except.ok all' := h
    cases hft : fillType all t with
    | error e => rw [hft] at h; simp at h
    | ok a2 =>
      rw [hft] at h
      rcases List.mem_cons.mp ht with rfl | ht'
      · exact ⟨all, a2, hft⟩
      · exact ih a2 all' h typ ht'

theorem buildFields_ok_each {typName : String} {all : TypeTable} :
    ∀ (fl : List IntrospectionField) (acc fields : List (String × GField)),
      buildFields typName all fl acc = .ok fields →
      ∀ f ∈ fl, ∃ parsed, parseInputFields f.args all = .ok parsed := by
  intro fl
  induction fl with
  | nil =>
    intro acc fields h f hf
    simp at hf
  | cons f rest ih =>
    intro acc fields h g hg
    replace h : (match lookupTypeRef f.type all with
      | .error e => .error (wrapGo ("typ " ++ typName ++ " field " ++ f.name ++ " has bad typ: ") e)
      | .ok ft =>
        match parseInputFields f.args all with
        | .error e => .error (wrapGo ("field " ++ f.name ++ " input: ") e)
        | .ok parsed => buildFields typName all rest (insertReplace acc f.name ⟨parsed, ft, []⟩))
          = Except.ok fields := h
    cases hlt : lookupTypeRef f.type all with
    | error e => rw [hlt] at h; simp at h
    | ok ft =>
      rw [hlt] at h
      replace h : (match parseInputFields f.args all with
        | .error e => .error (wrapGo ("field " ++ f.name ++ " input: ") e)
        | .ok parsed => buildFields typName all rest (insertReplace acc f.name ⟨parsed, ft, []⟩))
          = Except.ok fields := h
      cases hpi : parseInputFields f.args all with
      | error e => rw [hpi] at h; simp at h
      | ok parsed =>
        rw [hpi] at h
        rcases List.mem_cons.mp hg with rfl | hg'
        · exact ⟨parsed, hpi⟩
        · exact ih (insertReplace acc f.name ⟨parsed, ft, []⟩) fields h g hg'

theorem fillType_inputObject {all : TypeTable} {typ : IntrospectionType} {all2 : TypeTable}
    (hk : typ.kind = "INPUT_OBJECT") (h : fillType all typ = .ok all2) :
    ∃ parsed, parseInputFields typ.inputFields all = .ok parsed := by
  have hh : fillType all typ = (match parseInputFields typ.inputFields all with
    | .error e => .error (wrapGo ("typ " ++ typ.name ++ ": ") e)
    | .ok parsed =>
      match lookupA all typ.name with
      | some (.inputObject io) =>
        .ok (insertReplace all typ.name (.inputObject { io with inputFields := parsed }))
      | _ => .error (.panic "interface conversion: graphql.Type is not *graphql.InputObject")) := by
    unfold fillType
    rw [hk]
    rfl
  rw [hh] at h
  cases hpi : parseInputFields typ.inputFields all with
  | error e => rw [hpi] at h; simp at h
  | ok parsed => exact ⟨parsed, rfl⟩

/-- C8: `parseSchema` fails with a duplicate-type error whenever two type
entries share a name (stated under valid kinds, since an entry of unknown
kind can error out first), fails with an unknown-type-kind error whenever
some kind is outside OBJECT/INPUT_OBJECT/SCALAR/UNION/ENUM (stated under
distinct names, since a duplicate can error first), fails whenever either
condition holds, and on success the type names are pairwise distinct. -/
theorem C8_duplicate_and_unknown_kind :
    ∀ s : IntrospectionQueryResult,
      ((∀ typ ∈ s.schema.types, validKindB typ.kind = true) →
        ¬ (s.schema.types.map (·.name)).Nodup →
        ∃ n, parseSchema s = .error (.err ("duplicate type " ++ n))) ∧
      ((s.schema.types.map (·.name)).Nodup →
        (∃ typ ∈ s.schema.types, validKindB typ.kind = false) →
        ∃ k, validKindB k = false ∧
          parseSchema s = .error (.err ("unknown type kind " ++ k))) ∧
      ((¬ (s.schema.types.map (·.name)).Nodup ∨
          ∃ typ ∈ s.schema.types, validKindB typ.kind = false) →
        isOkE (parseSchema s) = false) ∧
      (∀ all, parseSchema s = .ok all → (s.schema.types.map (·.name)).Nodup) := by
  intro s
  refine ⟨?_, ?_, ?_, ?_⟩
  · intro hvalid hnd
    obtain ⟨n, herr⟩ := buildShells_dup_err s.schema.types [] hvalid (Or.inl hnd)
    refine ⟨n, ?_⟩
    unfold parseSchema
    rw [herr]
  · intro hnd hbad
    obtain ⟨k, hk, herr⟩ := buildShells_badkind_err s.schema.types [] hnd
      (fun t ht => rfl) hbad
    refine ⟨k, hk, ?_⟩
    unfold parseSchema
    rw [herr]
  · intro hbad
    cases hbs : buildShells s.schema.types [] with
    | error e =>
      unfold parseSchema
      rw [hbs]
      rfl
    | ok sh =>
      exfalso
      obtain ⟨hnd, _, hprops, _⟩ := buildShells_ok s.schema.types [] sh hbs
      rcases hbad with h | ⟨typ, ht, hbk⟩
      · exact h hnd
      · rw [(hprops typ ht).1] at hbk
        exact absurd hbk (by simp)
  · intro all h
    exact (parseSchema_ok_facts h).1

/-- C10: `parseInputFields` fails whenever some input field's reference,
unwrapped by `lookupType` through the LIST/NON_NULL wrappers to the
innermost kind, is OBJECT or UNION; a successful run certifies every
member's unwrapped kind is INPUT_OBJECT, SCALAR or ENUM; consequently a
bad argument of an object field or a bad input field of an input-object
type fails `parseSchema`, and, when it sits in the merged schema, the
whole `ConvertVersionedSchemas`. -/
theorem C10_input_kind_discipline :
    (∀ (all : TypeTable) (source : List IntrospectionInputField)
       (f : IntrospectionInputField) (raw : IntrospectionTypeRef),
      f ∈ source → lookupType f.type = .ok raw →
      (raw.kind = "OBJECT" ∨ raw.kind = "UNION") →
      isOkE (parseInputFields source all) = false) ∧
    (∀ (all : TypeTable) (source : List IntrospectionInputField)
       (res : List (String × GType)),
      parseInputFields source all = .ok res →
      ∀ f ∈ source, ∃ raw, lookupType f.type = .ok raw ∧
        (raw.kind = "INPUT_OBJECT" ∨ raw.kind = "SCALAR" ∨ raw.kind = "ENUM")) ∧
    (∀ (s : IntrospectionQueryResult) (typ : IntrospectionType)
       (f : IntrospectionField) (arg : IntrospectionInputField)
       (raw : IntrospectionTypeRef),
      typ ∈ s.schema.types →
      ((typ.kind = "OBJECT" ∧ f ∈ typ.fields ∧ arg ∈ f.args) ∨
       (typ.kind = "INPUT_OBJECT" ∧ arg ∈ typ.inputFields)) →
      lookupType arg.type = .ok raw →
      (raw.kind = "OBJECT" ∨ raw.kind = "UNION") →
      isOkE (parseSchema s) = false) ∧
    (∀ (t : ServiceSchemas) (byName : List (String × IntrospectionQueryResult))
       (merged : IntrospectionQueryResult) (typ : IntrospectionType)
       (f : IntrospectionField) (arg : IntrospectionInputField)
       (raw : IntrospectionTypeRef),
      intersectedSchemas t = .ok byName →
      mergeSchemaSlice (byName.map Prod.snd) .Union = .ok merged →
      typ ∈ merged.schema.types →
      ((typ.kind = "OBJECT" ∧ f ∈ typ.fields ∧ arg ∈ f.args) ∨
       (typ.kind = "INPUT_OBJECT" ∧ arg ∈ typ.inputFields)) →
      lookupType arg.type = .ok raw →
      (raw.kind = "OBJECT" ∨ raw.kind = "UNION") →
      isOkE (ConvertVersionedSchemas t) = false) := by
  have hpart3 : ∀ (s : IntrospectionQueryResult) (typ : IntrospectionType)
      (f : IntrospectionField) (arg : IntrospectionInputField)
      (raw : IntrospectionTypeRef),
      typ ∈ s.schema.types →
      ((typ.kind = "OBJECT" ∧ f ∈ typ.fields ∧ arg ∈ f.args) ∨
       (typ.kind = "INPUT_OBJECT" ∧ arg ∈ typ.inputFields)) →
      lookupType arg.type = .ok raw →
      (raw.kind = "OBJECT" ∨ raw.kind = "UNION") →
      isOkE (parseSchema s) = false := by
    intro s typ f arg raw htyp hloc hlt hbk
    cases hps : parseSchema s with
    | error e => rfl
    | ok all =>
      exfalso
      unfold parseSchema at hps
      cases hbs : buildShells s.schema.types [] with
      | error e => rw [hbs] at hps; simp at hps
      | ok sh =>
        rw [hbs] at hps
        obtain ⟨t1, t2, hft⟩ := fillTypes_ok_each s.schema.types sh all hps typ htyp
        rcases hloc with ⟨hk, hf, harg⟩ | ⟨hk, harg⟩
        · obtain ⟨fields, o, hbf, _, _⟩ := fillType_object hk hft
          obtain ⟨parsed, hpi⟩ := buildFields_ok_each typ.fields [] fields hbf f hf
          obtain ⟨raw', hlt', hgood⟩ :=
            parseInputFieldsAux_ok_kinds t1 f.args [] parsed hpi arg harg
          rw [hlt] at hlt'
          injection hlt' with he
          subst he
          rcases hgood with h2 | h2 | h2 <;> rcases hbk with hb | hb <;>
            (rw [hb] at h2; exact absurd h2 (by decide))
        · obtain ⟨parsed, hpi⟩ := fillType_inputObject hk hft
          obtain ⟨raw', hlt', hgood⟩ :=
            parseInputFieldsAux_ok_kinds t1 typ.inputFields [] parsed hpi arg harg
          rw [hlt] at hlt'
          injection hlt' with he
          subst he
          rcases hgood with h2 | h2 | h2 <;> rcases hbk with hb | hb <;>
            (rw [hb] at h2; exact absurd h2 (by decide))
  refine ⟨?_, ?_, hpart3, ?_⟩
  · intro all source f raw hf hlt hbk
    exact parseInputFieldsAux_bad all source [] ⟨f, hf, raw, hlt, hbk⟩
  · intro all source res h
    exact parseInputFieldsAux_ok_kinds all source [] res h
  · intro t byName merged typ f arg raw h1 h2 htyp hloc hlt hbk
    cases hr : ConvertVersionedSchemas t with
    | error e => rfl
    | ok r =>
      exfalso
      obtain ⟨bn, mg, types0, t2, infos, g1, g2, g3, _, _, _, _⟩ := convert_ok_parts hr
      rw [h1] at g1; injection g1 with hbn; subst hbn
      rw [h2] at g2; injection g2 with hmg; subst hmg
      have hres := hpart3 merged typ f arg raw htyp hloc hlt hbk
      rw [g3, isOkE_ok] at hres
      exact Bool.noConfusion hres

/-! ## Witnesses -/

/-- Witness for C2 at the partial-federation table (spec scenario 5):
service B declares `foo` without the marker, so the merge fails. -/
theorem C2_federation_consistency_witness :
    federatedAsObject pfByName "foo" = true ∧
    isOkE (ConvertVersionedSchemas partialFedTable) = false :=
  ⟨by decide,
   (C2_federation_consistency partialFedTable pfByName "foo" rfl (by decide) (by decide)
     (by decide)).1
     ⟨("B", ⟨⟨[mkObj "foo" [mkF "name" (tref "SCALAR" "string")], mkScalar "string"]⟩⟩),
       by decide,
       mkObj "foo" [mkF "name" (tref "SCALAR" "string")],
       by decide, by decide, by decide⟩⟩

/-- Witness for C3 at the bad-key table (spec scenario 6): entry
`B_foo(keys: \x7bname, age\x7d)` while service A's federated `foo` lacks
`age`. -/
theorem C3_federation_key_availability_witness :
    validateFederationKeys bkByName "foo" "age" =
      .error (.err ("Invalid federation key " ++ "age")) ∧
    isOkE (ConvertVersionedSchemas badKeyTable) = false :=
  (C3_federation_key_availability badKeyTable bkByName bkMerged bkTypes
    "B" bkSvcB (mkObj "Federation" [bkEntry]) bkEntry "B" "foo"
    ⟨"keys", tref "INPUT_OBJECT" "fooKeys"⟩ (.base "INPUT_OBJECT" "fooKeys")
    ⟨"fooKeys", [("name", .named "string"), ("age", .named "string")]⟩ "age"
    rfl rfl rfl (by decide) (by decide) rfl (by decide) rfl (by decide) rfl rfl
    (by decide)).1
    ⟨("A", ⟨⟨[mkObj "foo" [mkF "_federation" (tref "SCALAR" "string"),
        mkF "name" (tref "SCALAR" "string")], mkScalar "string"]⟩⟩),
      by decide,
      mkObj "foo" [mkF "_federation" (tref "SCALAR" "string"),
        mkF "name" (tref "SCALAR" "string")],
      by decide, by decide, by decide, by decide⟩

/-- Witness for C4 at the entry-prefix table: service B's object field
`foo.name` is recorded for `B` in the field-info table. -/
theorem C4_services_annotation_witness :
    ConvertVersionedSchemas c9Table = .ok c9Result ∧
    hasServiceB c9Result.fields (some ("foo", "name")) "B" = true :=
  ⟨rfl,
   C4_services_annotation c9Table c9Result c9ByName "B" c9SchemaB
     (mkObj "foo" [mkF "name" (tref "SCALAR" "string")])
     (mkF "name" (tref "SCALAR" "string"))
     rfl rfl (by decide) (by decide) rfl (by decide)⟩

/-- Witness for C5 at the shadow table: entry `A_foo(keys: fooKeys)` on
service A marks `foo.name` with `FederatedKey["A"] = true`. -/
theorem C5_federated_key_annotation_witness :
    ConvertVersionedSchemas shadowTable = .ok shResult ∧
    hasFedKeyB shResult.types "foo" "name" "A" = true :=
  ⟨rfl,
   C5_federated_key_annotation shadowTable shResult shByName shTypes shMerged
     "A" shadowSchemaA (mkObj "Federation" [shEntryA]) shEntryA "A" "foo"
     ⟨"keys", tref "INPUT_OBJECT" "fooKeys"⟩ (.base "INPUT_OBJECT" "fooKeys")
     [("name", .named "string")] "name" ["_federation", "name"]
     rfl rfl rfl rfl (by decide) (by decide) rfl (by decide) rfl (by decide) rfl
     rfl (by decide) rfl (by decide)⟩

/-- Witness for C6 (amended) at a table whose single entry is named
`badname`: the name does not split at an underscore and the merge
fails. -/
theorem C6_entry_point_rejections_witness :
    isOkE (ConvertVersionedSchemas badNameTable) = false :=
  (C6_entry_point_rejections badNameTable bnByName bnMerged bnTypes "A" badNameSchema
    (mkObj "Federation" [mkFA "badname" (tref "OBJECT" "foo") []])
    (mkFA "badname" (tref "OBJECT" "foo") [])
    rfl rfl rfl (by decide) (by decide) rfl (by decide)).1
    (by
      intro sp objName h
      have h2 : (["badname"] : List String) = [sp, objName] := h
      simp at h2)

/-- Witness for C8 at a schema declaring the type name `x` twice. -/
theorem C8_duplicate_and_unknown_kind_witness :
    isOkE (parseSchema dupTypesSchema) = false :=
  (C8_duplicate_and_unknown_kind dupTypesSchema).2.2.1 (Or.inl (by decide))

/-- Witness for C10 at a single input field whose root kind is OBJECT. -/
theorem C10_input_kind_discipline_witness :
    isOkE (parseInputFields [⟨"a", tref "OBJECT" "foo"⟩] []) = false :=
  C10_input_kind_discipline.1 [] [⟨"a", tref "OBJECT" "foo"⟩]
    ⟨"a", tref "OBJECT" "foo"⟩ (.base "OBJECT" "foo") (by decide) rfl (Or.inl rfl)

end Thunder
